import Mathlib

/-!
Verification development for the terminal input engine of the mychat
repository (src/tui): the VT escape-sequence decoder (VtParser), the
line-editing buffer (InputField), and the raw-mode coordinator
(TerminalInput), shallowly embedded from the C++ sources.

Bytes are modelled as natural numbers; the C++ cast of an input char to
uint8 is modelled by reduction mod 256 at the single place the source
performs it (VtParser::feed).  Strings are modelled as lists of bytes.
-/

namespace MyChat

/-- Modifier bitmask, from src/tui/Modifier.hpp.  The C++ type is a uint8
bitmask with bit0=Shift, bit1=Alt, bit2=Ctrl, bit3=Super; we model it as a
record of the four bits. -/
structure Modifier where
  shift : Bool
  alt : Bool
  ctrl : Bool
  super : Bool
deriving DecidableEq, Repr

/-- The empty modifier set (Modifier::None). -/
def Modifier.none : Modifier := ⟨false, false, false, false⟩

/-- Bitwise OR of modifiers (operator| in Modifier.hpp). -/
def Modifier.or (a b : Modifier) : Modifier :=
  ⟨a.shift || b.shift, a.alt || b.alt, a.ctrl || b.ctrl, a.super || b.super⟩

/-- hasModifier from Modifier.hpp: tests whether a flag is set.  With the
record representation, testing a single named flag projects the field; we
expose the two tests the sources use. -/
def hasCtrl (m : Modifier) : Bool := m.ctrl

/-- Test for the Alt bit (hasModifier(mods, Modifier::Alt)). -/
def hasAlt (m : Modifier) : Bool := m.alt

-- Key codes, from src/tui/KeyCode.hpp.  Printable characters use their
-- Unicode codepoint directly; special keys use values from 0x10000 up.
namespace KeyCode

def enter : Nat := 0x10000
def tab : Nat := 0x10001
def backspace : Nat := 0x10002
def delete : Nat := 0x10003
def escape : Nat := 0x10004
def up : Nat := 0x10005
def down : Nat := 0x10006
def left : Nat := 0x10007
def right : Nat := 0x10008
def home : Nat := 0x10009
def «end» : Nat := 0x1000A
def pageUp : Nat := 0x1000B
def pageDown : Nat := 0x1000C
def insert : Nat := 0x1000D
def f1 : Nat := 0x1000E
def f2 : Nat := 0x1000F
def f3 : Nat := 0x10010
def f4 : Nat := 0x10011
def f5 : Nat := 0x10012
def f6 : Nat := 0x10013
def f7 : Nat := 0x10014
def f8 : Nat := 0x10015
def f9 : Nat := 0x10016
def f10 : Nat := 0x10017
def f11 : Nat := 0x10018
def f12 : Nat := 0x10019

end KeyCode

/-- isPrintable from KeyCode.hpp: a key code below 0x10000 and at least 32
(the space character) denotes a printable Unicode character. -/
def isPrintable (key : Nat) : Bool := key < 0x10000 && 32 ≤ key

/-- keyCodeFromCodepoint from KeyCode.hpp: the identity cast. -/
def keyCodeFromCodepoint (cp : Nat) : Nat := cp

/-- Keyboard event, from src/tui/InputEvent.hpp. -/
structure KeyEvent where
  key : Nat
  modifiers : Modifier := Modifier.none
  codepoint : Nat := 0
deriving DecidableEq, Repr

/-- Mouse action type, from src/tui/InputEvent.hpp. -/
inductive MouseType where
  | press
  | release
  | move
  | scrollUp
  | scrollDown
deriving DecidableEq, Repr

/-- Mouse event, from src/tui/InputEvent.hpp. -/
structure MouseEvent where
  type : MouseType
  button : Int := 0
  x : Int := 0
  y : Int := 0
  modifiers : Modifier := Modifier.none
deriving DecidableEq, Repr

/-- Discriminated union of terminal input events (InputEvent in
src/tui/InputEvent.hpp).  Paste text and resize dimensions are carried
inline. -/
inductive InputEvent where
  | key (ev : KeyEvent)
  | mouse (ev : MouseEvent)
  | resize (columns rows : Nat)
  | paste (text : List Nat)
deriving DecidableEq, Repr

/-- Decoder state machine states, from src/tui/VtParser.hpp. -/
inductive VtState where
  | ground
  | escape
  | csiEntry
  | csiParam
  | ss3
  | pasteBody
  | utf8Sequence
deriving DecidableEq, Repr

/-- The decoder's persistent state: the state tag plus the transient
buffers (VtParser's private fields in src/tui/VtParser.hpp). -/
structure VtParser where
  state : VtState := VtState.ground
  paramBuf : List Nat := []
  utf8Buf : List Nat := []
  pasteBuf : List Nat := []
  utf8Remaining : Nat := 0
deriving DecidableEq, Repr

/-- A freshly constructed decoder (all members at their initializers). -/
def VtParser.init : VtParser := {}

/-- Digit test for CSI parameter bytes. -/
def isDigitByte (b : Nat) : Bool := 0x30 ≤ b && b ≤ 0x39

/-- std::from_chars applied to one semicolon-separated field: parses an
optional minus sign followed by a maximal digit prefix; yields none when no
digit is present (the caller substitutes 0). -/
def parseIntField (field : List Nat) : Option Int :=
  match field with
  | 0x2D :: rest =>
      let digits := rest.takeWhile isDigitByte
      if digits.isEmpty then Option.none
      else Option.some (-(Int.ofNat (digits.foldl (fun acc d => acc * 10 + (d - 0x30)) 0)))
  | _ =>
      let digits := field.takeWhile isDigitByte
      if digits.isEmpty then Option.none
      else Option.some (Int.ofNat (digits.foldl (fun acc d => acc * 10 + (d - 0x30)) 0))

/-- parseCsiParams from VtParser.cpp: splits the parameter string on
semicolons and parses each field, substituting 0 on parse failure. -/
def parseCsiParams (buf : List Nat) : List Int :=
  (buf.splitOn 0x3B).map (fun field => (parseIntField field).getD 0)

/-- decodeModifiers from VtParser.cpp: a raw CSI modifier parameter at most
1 means no modifiers; otherwise param - 1 is read as a bitmask with
bit0=Shift, bit1=Alt, bit2=Ctrl, bit3=Super. -/
def decodeModifiers (param : Int) : Modifier :=
  if param ≤ 1 then Modifier.none
  else
    let bits := (param - 1).toNat
    ⟨bits.land 1 ≠ 0, bits.land 2 ≠ 0, bits.land 4 ≠ 0, bits.land 8 ≠ 0⟩

/-- The local `modifier` computed at the top of mapCsiKey (and of the CSIu
branch of dispatchCsi): the decoded second numeric parameter, when
present. -/
def csiModifier (params : List Int) : Modifier :=
  if params.length ≥ 2 then decodeModifiers (params.getD 1 0) else Modifier.none

/-- The fixed lookup table of the `final byte ~` switch in mapCsiKey:
first numeric parameter to key code (note the gap between 21 and 23 at the
position that would be F11). -/
def csiTildeTable : List (Int × Nat) :=
  [(1, KeyCode.home), (2, KeyCode.insert), (3, KeyCode.delete), (4, KeyCode.«end»),
   (5, KeyCode.pageUp), (6, KeyCode.pageDown), (11, KeyCode.f1), (12, KeyCode.f2),
   (13, KeyCode.f3), (14, KeyCode.f4), (15, KeyCode.f5), (17, KeyCode.f6), (18, KeyCode.f7),
   (19, KeyCode.f8), (20, KeyCode.f9), (21, KeyCode.f10), (23, KeyCode.f11), (24, KeyCode.f12)]

/-- First-match search in an association table (the semantics of a C++
switch statement over distinct cases). -/
def tableLookup (p0 : Int) : List (Int × Nat) → Option Nat
  | [] => Option.none
  | (c, v) :: rest => if p0 = c then Option.some v else tableLookup p0 rest

/-- The `case 0x7E` (final byte ~) arm of mapCsiKey: requires a first
parameter and switches on it through the fixed table. -/
def mapCsiTilde (params : List Int) : Option KeyEvent :=
  if params.isEmpty then Option.none
  else
    match tableLookup (params.headD 0) csiTildeTable with
    | Option.some key => Option.some { key := key, modifiers := csiModifier params }
    | Option.none => Option.none

/-- mapCsiKey from VtParser.cpp: maps a CSI final byte (with parsed
parameters) to a cursor/function key event, or none. -/
def mapCsiKey (finalByte : Nat) (params : List Int) : Option KeyEvent :=
  if finalByte = 0x41 then Option.some { key := KeyCode.up, modifiers := csiModifier params }
  else if finalByte = 0x42 then Option.some { key := KeyCode.down, modifiers := csiModifier params }
  else if finalByte = 0x43 then Option.some { key := KeyCode.right, modifiers := csiModifier params }
  else if finalByte = 0x44 then Option.some { key := KeyCode.left, modifiers := csiModifier params }
  else if finalByte = 0x48 then Option.some { key := KeyCode.home, modifiers := csiModifier params }
  else if finalByte = 0x46 then Option.some { key := KeyCode.«end», modifiers := csiModifier params }
  else if finalByte = 0x7E then mapCsiTilde params
  else Option.none

/-- emitCodepoint from VtParser.cpp: a key event carrying a codepoint as
both key and codepoint. -/
def emitCodepoint (cp : Nat) : InputEvent :=
  InputEvent.key { key := keyCodeFromCodepoint cp, codepoint := cp }

/-- emitUtf8 from VtParser.cpp: decodes the accumulated 2-, 3-, or 4-byte
UTF-8 sequence to one codepoint and emits a key event when the decoded
value is non-zero. -/
def emitUtf8 (buf : List Nat) : List InputEvent :=
  let cp : Nat :=
    match buf with
    | [b0, b1] => (b0.land 0x1F) <<< 6 ||| (b1.land 0x3F)
    | [b0, b1, b2] => (b0.land 0x0F) <<< 12 ||| ((b1.land 0x3F) <<< 6) ||| (b2.land 0x3F)
    | [b0, b1, b2, b3] =>
        (b0.land 0x07) <<< 18 ||| ((b1.land 0x3F) <<< 12) ||| ((b2.land 0x3F) <<< 6)
          ||| (b3.land 0x3F)
    | _ => 0
  if cp ≠ 0 then [InputEvent.key { key := keyCodeFromCodepoint cp, codepoint := cp }] else []

/-- VtParser::processGround: handles a byte in the Ground state. -/
def processGround (p : VtParser) (byte : Nat) : VtParser × List InputEvent :=
  if byte = 0x1B then ({ p with state := VtState.escape }, [])
  else if byte < 0x20 then
    if byte = 0x0D || byte = 0x0A then (p, [InputEvent.key { key := KeyCode.enter }])
    else if byte = 0x09 then (p, [InputEvent.key { key := KeyCode.tab }])
    else if byte = 0x7F || byte = 0x08 then (p, [InputEvent.key { key := KeyCode.backspace }])
    else
      -- Ctrl+letter: the letter is reconstructed as byte + ('a' - 1)
      let cp := byte + 0x60
      (p, [InputEvent.key { key := keyCodeFromCodepoint cp,
                            modifiers := { Modifier.none with ctrl := true }, codepoint := cp }])
  else if byte = 0x7F then (p, [InputEvent.key { key := KeyCode.backspace }])
  else if byte.land 0x80 ≠ 0 then
    -- UTF-8 multi-byte lead byte: the continuation count comes from the
    -- leading bit pattern; an unrecognized pattern is ignored.
    let p := { p with utf8Buf := [byte] }
    if byte.land 0xE0 = 0xC0 then
      ({ p with utf8Remaining := 1, state := VtState.utf8Sequence }, [])
    else if byte.land 0xF0 = 0xE0 then
      ({ p with utf8Remaining := 2, state := VtState.utf8Sequence }, [])
    else if byte.land 0xF8 = 0xF0 then
      ({ p with utf8Remaining := 3, state := VtState.utf8Sequence }, [])
    else (p, [])
  else (p, [emitCodepoint byte])

/-- VtParser::processEscape: handles a byte in the Escape state. -/
def processEscape (p : VtParser) (byte : Nat) : VtParser × List InputEvent :=
  if byte = 0x5B then ({ p with paramBuf := [], state := VtState.csiEntry }, [])
  else if byte = 0x4F then ({ p with state := VtState.ss3 }, [])
  else if byte = 0x0D || byte = 0x0A then
    ({ p with state := VtState.ground },
     [InputEvent.key { key := KeyCode.enter, modifiers := { Modifier.none with alt := true } }])
  else if 0x20 ≤ byte && byte < 0x7F then
    ({ p with state := VtState.ground },
     [InputEvent.key { key := keyCodeFromCodepoint byte,
                       modifiers := { Modifier.none with alt := true }, codepoint := byte }])
  else
    -- ESC ESC or ESC + control byte: emit a bare Escape and reprocess
    let r := processGround { p with state := VtState.ground } byte
    (r.1, InputEvent.key { key := KeyCode.escape } :: r.2)

/-- VtParser::dispatchCsi: interprets a completed CSI sequence given the
accumulated parameter buffer and final byte. -/
def dispatchCsi (p : VtParser) (finalByte : Nat) : VtParser × List InputEvent :=
  -- SGR mouse report: parameter string starting with < and final M or m
  if p.paramBuf ≠ [] ∧ p.paramBuf.headD 0 = 0x3C ∧ (finalByte = 0x4D ∨ finalByte = 0x6D) then
    let params := parseCsiParams (p.paramBuf.drop 1)
    match params with
    | rawButton :: x :: y :: _ =>
      let isRelease := finalByte = 0x6D
      let mods : Modifier :=
        ⟨rawButton.toNat.land 4 ≠ 0, rawButton.toNat.land 8 ≠ 0,
         rawButton.toNat.land 16 ≠ 0, false⟩
      let buttonBits := rawButton.toNat.land 0x43
      if buttonBits = 64 then
        (p, [InputEvent.mouse { type := MouseType.scrollUp, x := x, y := y, modifiers := mods }])
      else if buttonBits = 65 then
        (p, [InputEvent.mouse { type := MouseType.scrollDown, x := x, y := y, modifiers := mods }])
      else if rawButton.toNat.land 32 ≠ 0 then
        (p, [InputEvent.mouse { type := MouseType.move, button := Int.ofNat (buttonBits.land 3),
                                x := x, y := y, modifiers := mods }])
      else if isRelease then
        (p, [InputEvent.mouse { type := MouseType.release, button := Int.ofNat (buttonBits.land 3),
                                x := x, y := y, modifiers := mods }])
      else
        (p, [InputEvent.mouse { type := MouseType.press, button := Int.ofNat (buttonBits.land 3),
                                x := x, y := y, modifiers := mods }])
    | _ => (p, [])
  -- Bracketed paste start: ESC [ 200 ~
  else if finalByte = 0x7E ∧ p.paramBuf = [0x32, 0x30, 0x30] then
    ({ p with pasteBuf := [], state := VtState.pasteBody }, [])
  -- CSIu (Kitty keyboard protocol)
  else if finalByte = 0x75 then
    let params := parseCsiParams p.paramBuf
    let keycode := params.headD 0
    let modifier := if params.length ≥ 2 then decodeModifiers (params.getD 1 0) else Modifier.none
    if keycode = 13 then (p, [InputEvent.key { key := KeyCode.enter, modifiers := modifier }])
    else if keycode = 9 then (p, [InputEvent.key { key := KeyCode.tab, modifiers := modifier }])
    else if keycode = 127 then
      (p, [InputEvent.key { key := KeyCode.backspace, modifiers := modifier }])
    else if keycode = 27 then
      (p, [InputEvent.key { key := KeyCode.escape, modifiers := modifier }])
    else if 32 ≤ keycode ∧ keycode < 0x10000 then
      (p, [InputEvent.key { key := keyCodeFromCodepoint keycode.toNat, modifiers := modifier,
                            codepoint := keycode.toNat }])
    else (p, [])
  -- Sequences with private markers > or ? are capability responses: ignored
  else if p.paramBuf ≠ [] ∧ (p.paramBuf.headD 0 = 0x3E ∨ p.paramBuf.headD 0 = 0x3F) then
    (p, [])
  else
    match mapCsiKey finalByte (parseCsiParams p.paramBuf) with
    | Option.some key => (p, [InputEvent.key key])
    | Option.none => (p, [])

/-- VtParser::processCsi: handles a byte in the CsiEntry/CsiParam states. -/
def processCsi (p : VtParser) (byte : Nat) : VtParser × List InputEvent :=
  if isDigitByte byte || byte = 0x3B || byte = 0x3C || byte = 0x3E || byte = 0x3F then
    ({ p with paramBuf := p.paramBuf ++ [byte], state := VtState.csiParam }, [])
  else if 0x40 ≤ byte && byte ≤ 0x7E then
    let r := dispatchCsi p byte
    -- only reset to Ground if dispatchCsi did not change state (e.g. to PasteBody)
    if r.1.state = VtState.csiEntry ∨ r.1.state = VtState.csiParam then
      ({ r.1 with state := VtState.ground }, r.2)
    else r
  else if 0x20 ≤ byte && byte ≤ 0x2F then
    ({ p with paramBuf := p.paramBuf ++ [byte] }, [])
  else ({ p with state := VtState.ground }, [])

/-- VtParser::processSs3: handles the single final byte after ESC O. -/
def processSs3 (p : VtParser) (byte : Nat) : VtParser × List InputEvent :=
  let p := { p with state := VtState.ground }
  if byte = 0x41 then (p, [InputEvent.key { key := KeyCode.up }])
  else if byte = 0x42 then (p, [InputEvent.key { key := KeyCode.down }])
  else if byte = 0x43 then (p, [InputEvent.key { key := KeyCode.right }])
  else if byte = 0x44 then (p, [InputEvent.key { key := KeyCode.left }])
  else if byte = 0x48 then (p, [InputEvent.key { key := KeyCode.home }])
  else if byte = 0x46 then (p, [InputEvent.key { key := KeyCode.«end» }])
  else if byte = 0x50 then (p, [InputEvent.key { key := KeyCode.f1 }])
  else if byte = 0x51 then (p, [InputEvent.key { key := KeyCode.f2 }])
  else if byte = 0x52 then (p, [InputEvent.key { key := KeyCode.f3 }])
  else if byte = 0x53 then (p, [InputEvent.key { key := KeyCode.f4 }])
  else (p, [])

/-- The bracketed-paste end marker ESC [ 2 0 1 ~ as bytes. -/
def pasteEndMarker : List Nat := [0x1B, 0x5B, 0x32, 0x30, 0x31, 0x7E]

/-- VtParser::processPaste: accumulates a byte, and when the buffer now
ends with the paste end marker, strips it and emits the Paste event. -/
def processPaste (p : VtParser) (byte : Nat) : VtParser × List InputEvent :=
  let buf := p.pasteBuf ++ [byte]
  if pasteEndMarker.length ≤ buf.length ∧ pasteEndMarker.isSuffixOf buf then
    let text := buf.take (buf.length - pasteEndMarker.length)
    ({ p with pasteBuf := [], state := VtState.ground }, [InputEvent.paste text])
  else ({ p with pasteBuf := buf }, [])

/-- VtParser::processUtf8: handles a byte in the Utf8Sequence state. -/
def processUtf8 (p : VtParser) (byte : Nat) : VtParser × List InputEvent :=
  if byte.land 0xC0 ≠ 0x80 then
    -- invalid continuation byte: discard the sequence and reprocess
    processGround { p with utf8Buf := [], state := VtState.ground } byte
  else
    let buf := p.utf8Buf ++ [byte]
    let remaining := p.utf8Remaining - 1
    if remaining = 0 then
      ({ p with utf8Buf := [], utf8Remaining := 0, state := VtState.ground }, emitUtf8 buf)
    else ({ p with utf8Buf := buf, utf8Remaining := remaining }, [])

/-- One iteration of the loop body of VtParser::feed: dispatch a single
raw byte (cast to uint8, modelled as mod 256) according to the state. -/
def stepByte (p : VtParser) (ch : Nat) : VtParser × List InputEvent :=
  let byte := ch % 256
  match p.state with
  | VtState.ground => processGround p byte
  | VtState.escape => processEscape p byte
  | VtState.csiEntry => processCsi p byte
  | VtState.csiParam => processCsi p byte
  | VtState.ss3 => processSs3 p byte
  | VtState.pasteBody => processPaste p byte
  | VtState.utf8Sequence => processUtf8 p byte

/-- VtParser::feed: consumes a chunk of raw bytes and returns the updated
decoder together with the events resolved by the chunk, in order. -/
def feed (p : VtParser) : List Nat → VtParser × List InputEvent
  | [] => (p, [])
  | ch :: rest =>
    let (p1, evs1) := stepByte p ch
    let (p2, evs2) := feed p1 rest
    (p2, evs1 ++ evs2)

/-- VtParser::timeout: resolves a bare ESC (held in the Escape state) as an
Escape key; in every other state it does nothing. -/
def timeout (p : VtParser) : VtParser × List InputEvent :=
  if p.state = VtState.escape then
    ({ p with state := VtState.ground }, [InputEvent.key { key := KeyCode.escape }])
  else (p, [])

/-- Feeding a list of chunks one after another, threading the decoder state
and concatenating the produced events. -/
def feedChunks (p : VtParser) : List (List Nat) → VtParser × List InputEvent
  | [] => (p, [])
  | c :: cs =>
    let (p1, evs1) := feed p c
    let (p2, evs2) := feedChunks p1 cs
    (p2, evs1 ++ evs2)

theorem feed_append (p : VtParser) (xs ys : List Nat) :
    feed p (xs ++ ys) =
      ((feed (feed p xs).1 ys).1, (feed p xs).2 ++ (feed (feed p xs).1 ys).2) := by
  induction xs generalizing p with
  | nil => simp [feed]
  | cons ch rest ih =>
    simp only [List.cons_append, feed, List.append_eq]
    rw [ih]
    simp [List.append_assoc]

/-- **C2.** For every way of splitting a byte sequence into consecutive
chunks, feeding the chunks in order (threading the decoder state) produces
the same final decoder state and the same concatenated event list as
feeding the whole sequence at once. -/
theorem feed_is_chunking_homomorphism (chunks : List (List Nat)) (p : VtParser) :
    feedChunks p chunks = feed p chunks.flatten := by
  induction chunks generalizing p with
  | nil => simp [feedChunks, feed]
  | cons c cs ih =>
    simp only [feedChunks, List.flatten, feed_append]
    rw [ih]

/-! ### The relation between a key event's codepoint field and its key code -/

/-- The (amended) key-event well-formedness relation: a key event whose key
code is printable carries a non-zero codepoint, and a non-zero codepoint
always equals the key code. -/
def keyEventOk : InputEvent → Prop
  | InputEvent.key k =>
      (isPrintable k.key = true → k.codepoint ≠ 0) ∧ (k.codepoint ≠ 0 → k.key = k.codepoint)
  | _ => True

instance (e : InputEvent) : Decidable (keyEventOk e) := by
  cases e <;> simp only [keyEventOk] <;> infer_instance

theorem keyEventOk_cp (cp : Nat) (m : Modifier) :
    keyEventOk (InputEvent.key { key := keyCodeFromCodepoint cp, modifiers := m,
                                 codepoint := cp }) := by
  refine ⟨fun h => ?_, fun _ => rfl⟩
  simp only [isPrintable, keyCodeFromCodepoint, Bool.and_eq_true, decide_eq_true_eq] at h
  show cp ≠ 0
  omega

theorem keyEventOk_special (k : Nat) (m : Modifier) (hk : 0x10000 ≤ k) :
    keyEventOk (InputEvent.key { key := k, modifiers := m, codepoint := 0 }) := by
  constructor
  · intro h
    simp only [isPrintable, Bool.and_eq_true, decide_eq_true_eq] at h
    omega
  · intro h
    exact absurd rfl h

theorem keyEventOk_of_fields (k : KeyEvent) (h1 : 0x10000 ≤ k.key) (h2 : k.codepoint = 0) :
    keyEventOk (InputEvent.key k) := by
  constructor
  · intro hp
    simp only [isPrintable, Bool.and_eq_true, decide_eq_true_eq] at hp
    omega
  · intro hcp
    exact absurd h2 hcp

theorem tableLookup_mem (p0 : Int) (t : List (Int × Nat)) (v : Nat)
    (h : tableLookup p0 t = Option.some v) : v ∈ t.map Prod.snd := by
  induction t with
  | nil => exact Option.noConfusion h
  | cons c rest ih =>
    rcases c with ⟨ck, cv⟩
    rw [tableLookup] at h
    split at h
    · injection h with h2
      subst h2
      exact List.mem_cons_self _ _
    · exact List.mem_cons_of_mem _ (ih h)

theorem mapCsiTilde_special (ps : List Int) (k : KeyEvent)
    (h : mapCsiTilde ps = Option.some k) : 0x10000 ≤ k.key ∧ k.codepoint = 0 := by
  unfold mapCsiTilde at h
  split at h
  · exact Option.noConfusion h
  · split at h
    · injection h with h2
      subst h2
      rename_i v hv
      refine ⟨?_, rfl⟩
      have hm := tableLookup_mem _ _ _ hv
      revert hm
      show v ∈ (csiTildeTable.map Prod.snd) → 0x10000 ≤ v
      have : ∀ w ∈ csiTildeTable.map Prod.snd, 0x10000 ≤ w := by decide
      exact this v
    · exact Option.noConfusion h

theorem mapCsiKey_special (fb : Nat) (ps : List Int) (k : KeyEvent)
    (h : mapCsiKey fb ps = Option.some k) : 0x10000 ≤ k.key ∧ k.codepoint = 0 := by
  unfold mapCsiKey at h
  repeat' split at h
  all_goals first
    | exact mapCsiTilde_special _ _ h
    | exact Option.noConfusion h
    | (injection h with h2
       subst h2
       refine ⟨by norm_num [KeyCode.up, KeyCode.down, KeyCode.left, KeyCode.right, KeyCode.home,
         KeyCode.«end»], rfl⟩)

theorem processGround_ok (p : VtParser) (b : Nat) :
    ∀ e ∈ (processGround p b).2, keyEventOk e := by
  intro e he
  simp only [processGround, emitCodepoint] at he
  repeat' split at he
  all_goals simp only [List.mem_singleton, List.mem_cons, List.not_mem_nil, or_false] at he
  all_goals first
    | (subst he; exact keyEventOk_cp _ _)
    | (subst he
       exact keyEventOk_special _ _ (by norm_num [KeyCode.enter, KeyCode.tab, KeyCode.backspace]))

theorem processEscape_ok (p : VtParser) (b : Nat) :
    ∀ e ∈ (processEscape p b).2, keyEventOk e := by
  intro e he
  simp only [processEscape] at he
  repeat' split at he
  all_goals simp only [List.mem_singleton, List.mem_cons, List.not_mem_nil, or_false] at he
  all_goals first
    | (subst he; exact keyEventOk_cp _ _)
    | (subst he
       exact keyEventOk_special _ _ (by norm_num [KeyCode.enter, KeyCode.escape]))
    | (rcases he with he | he
       · subst he
         exact keyEventOk_special _ _ (by norm_num [KeyCode.escape])
       · exact processGround_ok _ _ _ he)

theorem dispatchCsi_ok (p : VtParser) (b : Nat) :
    ∀ e ∈ (dispatchCsi p b).2, keyEventOk e := by
  intro e he
  simp only [dispatchCsi] at he
  repeat' split at he
  all_goals simp only [List.mem_singleton, List.mem_cons, List.not_mem_nil, or_false] at he
  all_goals first
    | (subst he; exact trivial)
    | (subst he
       exact keyEventOk_special _ _ (by norm_num [KeyCode.enter, KeyCode.tab, KeyCode.backspace,
         KeyCode.escape]))
    | (subst he; exact keyEventOk_cp _ _)
    | (subst he
       rename_i key heq
       rcases mapCsiKey_special _ _ _ heq with ⟨h1, h2⟩
       exact keyEventOk_of_fields key h1 h2)

theorem processCsi_ok (p : VtParser) (b : Nat) :
    ∀ e ∈ (processCsi p b).2, keyEventOk e := by
  intro e he
  simp only [processCsi] at he
  repeat' split at he
  all_goals first
    | cases he
    | exact dispatchCsi_ok _ _ _ he

theorem processSs3_ok (p : VtParser) (b : Nat) :
    ∀ e ∈ (processSs3 p b).2, keyEventOk e := by
  intro e he
  simp only [processSs3] at he
  repeat' split at he
  all_goals simp only [List.mem_singleton, List.mem_cons, List.not_mem_nil, or_false] at he
  all_goals
    subst he
  all_goals
    exact keyEventOk_special _ _ (by norm_num [KeyCode.up, KeyCode.down, KeyCode.left,
      KeyCode.right, KeyCode.home, KeyCode.«end», KeyCode.f1, KeyCode.f2, KeyCode.f3,
      KeyCode.f4])

theorem processPaste_ok (p : VtParser) (b : Nat) :
    ∀ e ∈ (processPaste p b).2, keyEventOk e := by
  intro e he
  simp only [processPaste] at he
  repeat' split at he
  all_goals simp only [List.mem_singleton, List.mem_cons, List.not_mem_nil, or_false] at he
  all_goals (subst he; exact trivial)

theorem emitUtf8_ok (buf : List Nat) : ∀ e ∈ emitUtf8 buf, keyEventOk e := by
  intro e he
  simp only [emitUtf8] at he
  repeat' split at he
  all_goals simp only [List.mem_singleton, List.mem_cons, List.not_mem_nil, or_false] at he
  all_goals (subst he; exact keyEventOk_cp _ _)

theorem processUtf8_ok (p : VtParser) (b : Nat) :
    ∀ e ∈ (processUtf8 p b).2, keyEventOk e := by
  intro e he
  simp only [processUtf8] at he
  split at he
  · exact processGround_ok _ _ _ he
  · split at he
    · exact emitUtf8_ok _ _ he
    · simp only [List.not_mem_nil] at he

theorem stepByte_ok (p : VtParser) (b : Nat) :
    ∀ e ∈ (stepByte p b).2, keyEventOk e := by
  intro e he
  simp only [stepByte] at he
  rcases hs : p.state <;> rw [hs] at he
  · exact processGround_ok _ _ _ he
  · exact processEscape_ok _ _ _ he
  · exact processCsi_ok _ _ _ he
  · exact processCsi_ok _ _ _ he
  · exact processSs3_ok _ _ _ he
  · exact processPaste_ok _ _ _ he
  · exact processUtf8_ok _ _ _ he

theorem feed_ok (bytes : List Nat) (p : VtParser) :
    ∀ e ∈ (feed p bytes).2, keyEventOk e := by
  induction bytes generalizing p with
  | nil => intro e he; exact absurd he (List.not_mem_nil e)
  | cons b rest ih =>
    intro e he
    simp only [feed, List.mem_append] at he
    rcases he with he | he
    · exact stepByte_ok _ _ _ he
    · exact ih _ _ he

/-! ### Claim C4: a Key event's codepoint is non-zero iff its key code is printable -/

/-- **C4 counterexample.** Feeding the 4-byte UTF-8 encoding of U+1F600
(an emoji above the BMP) emits a Key event whose key code 0x1F600 is not
printable in the sense of isPrintable (it is not below 0x10000), yet whose
codepoint field is the non-zero decoded scalar value.  This refutes the
claimed equivalence: a Key event may carry a non-printable key code
together with a non-zero codepoint. -/
theorem printable_iff_codepoint_counterexample :
    (feed VtParser.init [0xF0, 0x9F, 0x98, 0x80]).2 =
      [InputEvent.key { key := 0x1F600, modifiers := Modifier.none, codepoint := 0x1F600 }] ∧
    isPrintable 0x1F600 = false ∧ (0x1F600 : Nat) ≠ 0 := by
  refine ⟨by decide, by decide, by decide⟩

/-- **C4 (amended).** For every byte sequence fed to a fresh decoder, every
emitted Key event satisfies: if its key code is printable then its
codepoint is non-zero, and whenever its codepoint is non-zero the key code
equals the codepoint.  (The converse — non-zero codepoint implies a
printable key code — fails, e.g. for supplementary-plane codepoints
decoded from 4-byte UTF-8 sequences.) -/
theorem printable_iff_codepoint_amended (bytes : List Nat) :
    ∀ e ∈ (feed VtParser.init bytes).2, keyEventOk e :=
  feed_ok bytes VtParser.init

theorem printable_iff_codepoint_amended_witness :
    (InputEvent.key { key := 97, modifiers := Modifier.none, codepoint := 97 }
        ∈ (feed VtParser.init [97]).2) ∧
      keyEventOk (InputEvent.key { key := 97, modifiers := Modifier.none, codepoint := 97 }) :=
  ⟨by decide, printable_iff_codepoint_amended [97]
    (InputEvent.key { key := 97, modifiers := Modifier.none, codepoint := 97 }) (by decide)⟩

/-! ### Claim C7: bare-ESC disambiguation by timeout -/

/-- **C7.** From any Ground-state decoder, feeding the single byte ESC
emits no events and moves to the Escape state with all buffers untouched;
a subsequent timeout() then emits exactly one Key(Escape) event and
returns to Ground, again leaving the buffers untouched.  In any state
other than Escape (in particular an incomplete CSI or incomplete UTF-8
sequence), timeout() emits no events and discards nothing: the decoder
state is returned entirely unchanged. -/
theorem bare_escape_timeout (p : VtParser) :
    (p.state = VtState.ground →
      feed p [0x1B] = ({ p with state := VtState.escape }, []) ∧
      timeout { p with state := VtState.escape } =
        ({ p with state := VtState.ground }, [InputEvent.key { key := KeyCode.escape }])) ∧
    (p.state ≠ VtState.escape → timeout p = (p, [])) := by
  obtain ⟨st, pb, ub, sb, ur⟩ := p
  constructor
  · intro h
    simp only at h
    subst h
    exact ⟨rfl, rfl⟩
  · intro h
    simp only [timeout, if_neg h]

theorem bare_escape_timeout_witness :
    (VtParser.init.state = VtState.ground ∧
      feed VtParser.init [0x1B] = ({ VtParser.init with state := VtState.escape }, []) ∧
      timeout { VtParser.init with state := VtState.escape } =
        ({ VtParser.init with state := VtState.ground },
         [InputEvent.key { key := KeyCode.escape }])) ∧
    ((feed VtParser.init [0x1B, 0x5B]).1.state ≠ VtState.escape ∧
      timeout (feed VtParser.init [0x1B, 0x5B]).1 = ((feed VtParser.init [0x1B, 0x5B]).1, [])) :=
  ⟨⟨rfl, (bare_escape_timeout VtParser.init).1 rfl⟩,
   ⟨by decide, (bare_escape_timeout (feed VtParser.init [0x1B, 0x5B]).1).2 (by decide)⟩⟩

/-! ### Claim C9: transient buffers and the decoder state -/

/-- **C9 counterexample.** After feeding the complete CSI sequence
ESC [ 5 ~ to a fresh decoder, the decoder is back in the Ground state but
the CSI parameter buffer still holds the byte for the digit 5: parameter
buffers are not cleared on returning to Ground, so a transient buffer can
be non-empty while the state is Ground, refuting the claimed invariant. -/
theorem transient_buffer_counterexample :
    (feed VtParser.init [0x1B, 0x5B, 0x35, 0x7E]).1.state = VtState.ground ∧
    (feed VtParser.init [0x1B, 0x5B, 0x35, 0x7E]).1.paramBuf = [0x35] ∧
    ([0x35] : List Nat) ≠ [] := by
  refine ⟨by decide, by decide, by decide⟩

theorem processGround_entry (q0 : VtParser) (b : Nat) (h : q0.state = VtState.ground) :
    (processGround q0 b).1.state = VtState.ground ∨
    (processGround q0 b).1.state = VtState.escape ∨
    ((processGround q0 b).1.state = VtState.utf8Sequence ∧
      (processGround q0 b).1.utf8Buf = [b]) := by
  unfold processGround
  repeat' split
  all_goals simp_all

theorem processEscape_entry (p : VtParser) (b : Nat) :
    ((processEscape p b).1.state = VtState.csiEntry ∧ (processEscape p b).1.paramBuf = []) ∨
    (processEscape p b).1.state = VtState.ss3 ∨
    (processEscape p b).1.state = VtState.ground ∨
    (processEscape p b).1.state = VtState.escape ∨
    ((processEscape p b).1.state = VtState.utf8Sequence ∧
      (processEscape p b).1.utf8Buf = [b]) := by
  unfold processEscape
  repeat' split
  · exact Or.inl ⟨rfl, rfl⟩
  · exact Or.inr (Or.inl rfl)
  · exact Or.inr (Or.inr (Or.inl rfl))
  · exact Or.inr (Or.inr (Or.inl rfl))
  · have hg := processGround_entry { p with state := VtState.ground } b rfl
    simp only
    tauto

theorem dispatchCsi_entry (p : VtParser) (fb : Nat) :
    (dispatchCsi p fb).1 = p ∨
    (dispatchCsi p fb).1 = { p with pasteBuf := [], state := VtState.pasteBody } := by
  unfold dispatchCsi
  repeat' split
  all_goals try (exact Or.inl rfl)
  all_goals try (exact Or.inr rfl)
  all_goals left
  all_goals
    rcases hm : parseCsiParams p.paramBuf.tail with _ | ⟨rb, _ | ⟨x, _ | ⟨y, tl⟩⟩⟩ <;>
      simp [hm, apply_ite (Prod.fst (α := VtParser) (β := List InputEvent))]

theorem processCsi_entry (p : VtParser) (b : Nat) (h : p.state = VtState.csiEntry ∨
    p.state = VtState.csiParam) :
    ((processCsi p b).1.state = VtState.pasteBody → (processCsi p b).1.pasteBuf = []) ∧
    (processCsi p b).1.state ≠ VtState.utf8Sequence := by
  unfold processCsi
  repeat' split
  all_goals try (rcases dispatchCsi_entry p b with hd | hd <;> simp only [hd])
  all_goals rcases h with h | h
  all_goals simp_all

theorem processSs3_state (p : VtParser) (b : Nat) :
    (processSs3 p b).1.state = VtState.ground := by
  unfold processSs3
  repeat' split
  all_goals rfl

theorem processPaste_state (p : VtParser) (b : Nat) (h : p.state = VtState.pasteBody) :
    (processPaste p b).1.state = VtState.ground ∨
    (processPaste p b).1.state = VtState.pasteBody := by
  simp only [processPaste]
  split
  · exact Or.inl rfl
  · exact Or.inr h

theorem processUtf8_entry (p : VtParser) (b : Nat) (h : p.state = VtState.utf8Sequence) :
    (processUtf8 p b).1.state = VtState.ground ∨ (processUtf8 p b).1.state = VtState.escape ∨
    (processUtf8 p b).1.state = VtState.utf8Sequence := by
  simp only [processUtf8]
  repeat' split
  · have := processGround_entry { p with utf8Buf := [], state := VtState.ground } b rfl
    tauto
  · exact Or.inl rfl
  · exact Or.inr (Or.inr h)

/-- **C9 (amended).** Each transient buffer is cleared at the moment its
owning state is entered: entering CsiEntry (on ESC [) clears the CSI
parameter buffer, entering PasteBody (on recognizing the paste-start
sequence) clears the paste accumulator, and starting a UTF-8 sequence
initializes the UTF-8 buffer to exactly the lead byte.  Buffers are not
cleared on returning to Ground, however, so a completed CSI or paste
sequence leaves a stale non-empty parameter buffer behind even in Ground
(see the counterexample above), and the stale contents are simply never
read. -/
theorem transient_buffer_amended (p : VtParser) (b : Nat) :
    (p.state ≠ VtState.csiEntry → p.state ≠ VtState.csiParam →
      ((stepByte p b).1.state = VtState.csiEntry ∨ (stepByte p b).1.state = VtState.csiParam) →
      (stepByte p b).1.paramBuf = []) ∧
    (p.state ≠ VtState.pasteBody → (stepByte p b).1.state = VtState.pasteBody →
      (stepByte p b).1.pasteBuf = []) ∧
    (p.state ≠ VtState.utf8Sequence → (stepByte p b).1.state = VtState.utf8Sequence →
      (stepByte p b).1.utf8Buf = [b % 256]) := by
  rcases hst : p.state
  all_goals simp only [stepByte, hst]
  · -- Ground
    refine ⟨fun _ _ hq => ?_, fun _ hq => ?_, fun _ hq => ?_⟩ <;>
      rcases processGround_entry p (b % 256) hst with h1 | h1 | ⟨h1, h2⟩ <;> simp_all
  · -- Escape
    refine ⟨fun _ _ hq => ?_, fun _ hq => ?_, fun _ hq => ?_⟩ <;>
      rcases processEscape_entry p (b % 256) with ⟨h1, h2⟩ | h1 | h1 | h1 | ⟨h1, h2⟩ <;>
        simp_all
  · -- CsiEntry
    refine ⟨fun h1 _ _ => absurd rfl h1, ?_, fun _ hq => ?_⟩
    · exact fun _ => (processCsi_entry p (b % 256) (Or.inl hst)).1
    · exact absurd hq (processCsi_entry p (b % 256) (Or.inl hst)).2
  · -- CsiParam
    refine ⟨fun _ h2 _ => absurd rfl h2, ?_, fun _ hq => ?_⟩
    · exact fun _ => (processCsi_entry p (b % 256) (Or.inr hst)).1
    · exact absurd hq (processCsi_entry p (b % 256) (Or.inr hst)).2
  · -- Ss3
    have h1 := processSs3_state p (b % 256)
    refine ⟨fun _ _ hq => ?_, fun _ hq => ?_, fun _ hq => ?_⟩ <;> simp_all
  · -- PasteBody
    refine ⟨fun _ _ hq => ?_, fun h1 _ => absurd rfl h1, fun _ hq => ?_⟩ <;>
      rcases processPaste_state p (b % 256) hst with h1 | h1 <;> simp_all
  · -- Utf8Sequence
    refine ⟨fun _ _ hq => ?_, fun _ hq => ?_, fun h1 _ => absurd rfl h1⟩ <;>
      rcases processUtf8_entry p (b % 256) hst with h1 | h1 | h1 <;> simp_all

theorem transient_buffer_amended_witness :
    (({ VtParser.init with state := VtState.escape, paramBuf := [0x39] } : VtParser).state
        ≠ VtState.csiEntry ∧
      ({ VtParser.init with state := VtState.escape, paramBuf := [0x39] } : VtParser).state
        ≠ VtState.csiParam ∧
      (stepByte { VtParser.init with state := VtState.escape, paramBuf := [0x39] } 0x5B).1.state
        = VtState.csiEntry) ∧
    (stepByte { VtParser.init with state := VtState.escape, paramBuf := [0x39] } 0x5B).1.paramBuf
      = [] := by
  refine ⟨⟨by decide, by decide, by decide⟩, ?_⟩
  exact (transient_buffer_amended
    { VtParser.init with state := VtState.escape, paramBuf := [0x39] } 0x5B).1
    (by decide) (by decide) (Or.inl (by decide))

/-! ## The text-editing buffer (InputField, src/tui/InputField.cpp)

The buffer is an owned UTF-8 string, modelled as a list of bytes; the
cursor is a byte offset. -/

/-- UTF-8 continuation-byte test ((c & 0xC0) == 0x80), as used by the
nextUtf8/prevUtf8 helpers in InputField.cpp. -/
def isContByte (b : Nat) : Bool := b.land 0xC0 = 0x80

/-- nextUtf8 from InputField.cpp: advance past one UTF-8 codepoint.  The
source increments the position once and then skips continuation bytes in a
loop; the skipped run is the longest prefix of continuation bytes after
position pos + 1, so the loop is rendered with takeWhile. -/
def nextUtf8 (s : List Nat) (pos : Nat) : Nat :=
  if s.length ≤ pos then pos
  else pos + 1 + ((s.drop (pos + 1)).takeWhile isContByte).length

/-- prevUtf8 from InputField.cpp: move back one UTF-8 codepoint.  The
source decrements once and then walks back over continuation bytes while
the position is positive; the walked run is the longest suffix of
continuation bytes of the first pos bytes (clipped at position 0 by the
truncated subtraction). -/
def prevUtf8 (s : List Nat) (pos : Nat) : Nat :=
  if pos = 0 then 0
  else (pos - 1) - ((s.take pos).reverse.takeWhile isContByte).length

theorem nextUtf8_gt (s : List Nat) (p : Nat) (h : p < s.length) : p < nextUtf8 s p := by
  unfold nextUtf8
  rw [if_neg (by omega)]
  omega

theorem prevUtf8_lt (s : List Nat) (p : Nat) (h : 0 < p) : prevUtf8 s p < p := by
  unfold prevUtf8
  rw [if_neg (by omega)]
  omega

/-- encodeUtf8 from InputField.cpp: encodes a codepoint as UTF-8 bytes
(values 0x110000 and above produce the empty string). -/
def encodeUtf8 (cp : Nat) : List Nat :=
  if cp < 0x80 then [cp]
  else if cp < 0x800 then
    [0xC0 ||| (cp >>> 6), 0x80 ||| (cp.land 0x3F)]
  else if cp < 0x10000 then
    [0xE0 ||| (cp >>> 12), 0x80 ||| ((cp >>> 6).land 0x3F), 0x80 ||| (cp.land 0x3F)]
  else if cp < 0x110000 then
    [0xF0 ||| (cp >>> 18), 0x80 ||| ((cp >>> 12).land 0x3F), 0x80 ||| ((cp >>> 6).land 0x3F),
     0x80 ||| (cp.land 0x3F)]
  else []

/-- UTF-8 validity scanner: the Nat argument counts continuation bytes
still owed by the last lead byte. -/
def validUtf8Aux : Nat → List Nat → Bool
  | 0, [] => true
  | 0, b :: rest =>
    if b < 0x80 then validUtf8Aux 0 rest
    else if b.land 0xE0 = 0xC0 then validUtf8Aux 1 rest
    else if b.land 0xF0 = 0xE0 then validUtf8Aux 2 rest
    else if b.land 0xF8 = 0xF0 then validUtf8Aux 3 rest
    else false
  | _ + 1, [] => false
  | n + 1, b :: rest => isContByte b && validUtf8Aux n rest

/-- UTF-8 validity of a byte string: each lead byte is followed by exactly
the continuation bytes its pattern announces.  This is the claim-side
notion of "the buffer holds valid UTF-8". -/
def validUtf8 (s : List Nat) : Bool := validUtf8Aux 0 s

/-- Decodes the UTF-8 codepoint starting at byte offset p (0 when the
bytes do not form a lead byte). -/
def decodeCpAt (s : List Nat) (p : Nat) : Nat :=
  let b0 := s.getD p 0
  if b0 < 0x80 then b0
  else if b0.land 0xE0 = 0xC0 then (b0.land 0x1F) <<< 6 ||| ((s.getD (p + 1) 0).land 0x3F)
  else if b0.land 0xF0 = 0xE0 then
    (b0.land 0x0F) <<< 12 ||| (((s.getD (p + 1) 0).land 0x3F) <<< 6)
      ||| ((s.getD (p + 2) 0).land 0x3F)
  else if b0.land 0xF8 = 0xF0 then
    (b0.land 0x07) <<< 18 ||| (((s.getD (p + 1) 0).land 0x3F) <<< 12)
      ||| (((s.getD (p + 2) 0).land 0x3F) <<< 6) ||| ((s.getD (p + 3) 0).land 0x3F)
  else 0

/-- Modelled from the spec: grapheme-cluster segmentation is provided by
the external libunicode utf8_grapheme_segmenter, which is not part of this
repository's sources.  The spec defines a grapheme cluster as "a base
letter plus combining accents"; we model the extending codepoints as the
combining diacritical marks block U+0300 - U+036F, which suffices for the
properties at issue. -/
def isGraphemeExtendCp (cp : Nat) : Bool := 0x300 ≤ cp && cp ≤ 0x36F

/-- Forward scan past extending codepoints (cluster continuation). -/
def graphemeSkipF (s : List Nat) (q : Nat) : Nat :=
  if h : q < s.length ∧ isGraphemeExtendCp (decodeCpAt s q) = true then
    graphemeSkipF s (nextUtf8 s q)
  else q
termination_by s.length - q
decreasing_by
  exact Nat.sub_lt_sub_left h.1 (nextUtf8_gt s q h.1)

/-- Backward scan over extending codepoints (towards the cluster start). -/
def graphemeSkipB (s : List Nat) (q : Nat) : Nat :=
  if h : 0 < q ∧ isGraphemeExtendCp (decodeCpAt s q) = true then
    graphemeSkipB s (prevUtf8 s q)
  else q
termination_by q
decreasing_by
  exact prevUtf8_lt s q h.1

/-- nextGraphemeCluster from InputField.cpp: the next cluster boundary at
or after pos (pos itself when at or past the end).  Modelled from the
spec for the segmentation itself: one codepoint forward, then past any
extending codepoints. -/
def nextGraphemeCluster (s : List Nat) (pos : Nat) : Nat :=
  if s.length ≤ pos then pos
  else graphemeSkipF s (nextUtf8 s pos)

/-- prevGraphemeCluster from InputField.cpp: the last cluster boundary
before pos (0 when pos = 0).  Modelled from the spec for the segmentation
itself: one codepoint back, then back over extending codepoints. -/
def prevGraphemeCluster (s : List Nat) (pos : Nat) : Nat :=
  if pos = 0 then 0
  else graphemeSkipB s (prevUtf8 s pos)

/-- isWordCharAt from InputField.cpp: any byte other than space, tab, CR
and LF counts as a word character. -/
def isWordCharAt (c : Nat) : Bool := c != 0x20 && c != 0x09 && c != 0x0A && c != 0x0D

/-- First loop of moveForwardWord: skip non-word characters. -/
def skipNonWordF (s : List Nat) (q : Nat) : Nat :=
  if h : q < s.length ∧ isWordCharAt (s.getD q 0) = false then skipNonWordF s (nextUtf8 s q)
  else q
termination_by s.length - q
decreasing_by
  exact Nat.sub_lt_sub_left h.1 (nextUtf8_gt s q h.1)

/-- Second loop of moveForwardWord: skip word characters. -/
def skipWordF (s : List Nat) (q : Nat) : Nat :=
  if h : q < s.length ∧ isWordCharAt (s.getD q 0) = true then skipWordF s (nextUtf8 s q)
  else q
termination_by s.length - q
decreasing_by
  exact Nat.sub_lt_sub_left h.1 (nextUtf8_gt s q h.1)

/-- First loop of moveBackwardWord: skip non-word characters backwards
(the byte tested is the one at the previous codepoint position). -/
def skipNonWordB (s : List Nat) (q : Nat) : Nat :=
  if h : 0 < q ∧ isWordCharAt (s.getD (prevUtf8 s q) 0) = false then
    skipNonWordB s (prevUtf8 s q)
  else q
termination_by q
decreasing_by
  exact prevUtf8_lt s q h.1

/-- Second loop of moveBackwardWord: skip word characters backwards. -/
def skipWordB (s : List Nat) (q : Nat) : Nat :=
  if h : 0 < q ∧ isWordCharAt (s.getD (prevUtf8 s q) 0) = true then
    skipWordB s (prevUtf8 s q)
  else q
termination_by q
decreasing_by
  exact prevUtf8_lt s q h.1

/-- Result of processing an input event (InputFieldAction in
src/tui/InputField.hpp). -/
inductive InputFieldAction where
  | changed
  | submit
  | abort
  | eof
  | none
deriving DecidableEq, Repr

/-- The InputField state (private members of InputField in
src/tui/InputField.hpp), with the members' default initializers. -/
structure InputField where
  buffer : List Nat := []
  cursor : Nat := 0
  prompt : List Nat := []
  multiline : Bool := false
  maxLines : Nat := 0
  history : List (List Nat) := []
  historyIndex : Nat := 0
  savedLine : List Nat := []
  maxHistory : Nat := 100
  killRing : List (List Nat) := []
  killRingIndex : Nat := 0
  lastWasKill : Bool := false
deriving DecidableEq, Repr

/-- MaxKillRing from InputField.hpp. -/
def MaxKillRing : Nat := 16

/-- std::string::erase(pos, n) on a byte string. -/
def eraseRange (s : List Nat) (pos n : Nat) : List Nat := s.take pos ++ s.drop (pos + n)

/-- std::string::substr(pos, n) on a byte string. -/
def substr (s : List Nat) (pos n : Nat) : List Nat := (s.drop pos).take n

/-- InputField::insertText: inserts bytes at the cursor and advances the
cursor by their length. -/
def insertText (f : InputField) (t : List Nat) : InputField :=
  { f with buffer := f.buffer.take f.cursor ++ t ++ f.buffer.drop f.cursor,
           cursor := f.cursor + t.length }

/-- InputField::insertCodepoint: inserts the UTF-8 encoding of a codepoint
at the cursor (same buffer/cursor update as insertText on the encoded
bytes). -/
def insertCodepoint (f : InputField) (cp : Nat) : InputField :=
  insertText f (encodeUtf8 cp)

/-- InputField::deleteChar: deletes the grapheme cluster at the cursor
without moving the cursor (no-op at the buffer end). -/
def deleteChar (f : InputField) : InputField :=
  if f.buffer.length ≤ f.cursor then f
  else
    let next := nextGraphemeCluster f.buffer f.cursor
    { f with buffer := eraseRange f.buffer f.cursor (next - f.cursor) }

/-- InputField::deleteCharBackward: deletes the grapheme cluster before
the cursor and moves the cursor to its start (no-op at 0). -/
def deleteCharBackward (f : InputField) : InputField :=
  if f.cursor = 0 then f
  else
    let prev := prevGraphemeCluster f.buffer f.cursor
    { f with buffer := eraseRange f.buffer prev (f.cursor - prev), cursor := prev }

/-- InputField::moveToStart. -/
def moveToStart (f : InputField) : InputField := { f with cursor := 0 }

/-- InputField::moveToEnd. -/
def moveToEnd (f : InputField) : InputField := { f with cursor := f.buffer.length }

/-- InputField::moveForwardChar. -/
def moveForwardChar (f : InputField) : InputField :=
  { f with cursor := nextGraphemeCluster f.buffer f.cursor }

/-- InputField::moveBackwardChar. -/
def moveBackwardChar (f : InputField) : InputField :=
  { f with cursor := prevGraphemeCluster f.buffer f.cursor }

/-- InputField::moveForwardWord: skip non-word characters, then word
characters. -/
def moveForwardWord (f : InputField) : InputField :=
  { f with cursor := skipWordF f.buffer (skipNonWordF f.buffer f.cursor) }

/-- InputField::moveBackwardWord: the mirror of moveForwardWord. -/
def moveBackwardWord (f : InputField) : InputField :=
  { f with cursor := skipWordB f.buffer (skipNonWordB f.buffer f.cursor) }

/-- InputField::pushKillRing: appends to the last ring entry when the
previous action was also a kill, otherwise pushes a new entry and evicts
the oldest beyond MaxKillRing entries. -/
def pushKillRing (f : InputField) (text : List Nat) : InputField :=
  if text.isEmpty then f
  else if f.lastWasKill && !f.killRing.isEmpty then
    { f with killRing := f.killRing.dropLast ++ [f.killRing.getLastD [] ++ text] }
  else
    let ring := f.killRing ++ [text]
    { f with killRing := if MaxKillRing < ring.length then ring.drop 1 else ring }

/-- InputField::killToEnd (Ctrl+K). -/
def killToEnd (f : InputField) : InputField :=
  let f1 :=
    if f.cursor < f.buffer.length then
      pushKillRing { f with buffer := f.buffer.take f.cursor } (f.buffer.drop f.cursor)
    else f
  { f1 with lastWasKill := true }

/-- InputField::killToStart (Ctrl+U). -/
def killToStart (f : InputField) : InputField :=
  let f1 :=
    if 0 < f.cursor then
      pushKillRing { f with buffer := f.buffer.drop f.cursor, cursor := 0 }
        (f.buffer.take f.cursor)
    else f
  { f1 with lastWasKill := true }

/-- InputField::killWord (Alt+D): moveForwardWord fixes the kill end; when
no motion happened the cursor write-back is the identity. -/
def killWord (f : InputField) : InputField :=
  let start := f.cursor
  let c2 := skipWordF f.buffer (skipNonWordF f.buffer f.cursor)
  let f1 :=
    if start < c2 then
      pushKillRing { f with buffer := eraseRange f.buffer start (c2 - start), cursor := start }
        (substr f.buffer start (c2 - start))
    else { f with cursor := c2 }
  { f1 with lastWasKill := true }

/-- InputField::killWordBackward (Ctrl+W / Alt+Backspace). -/
def killWordBackward (f : InputField) : InputField :=
  let endPos := f.cursor
  let c2 := skipWordB f.buffer (skipNonWordB f.buffer f.cursor)
  let f1 :=
    if c2 < endPos then
      pushKillRing { f with buffer := eraseRange f.buffer c2 (endPos - c2), cursor := c2 }
        (substr f.buffer c2 (endPos - c2))
    else { f with cursor := c2 }
  { f1 with lastWasKill := true }

/-- InputField::yank (Ctrl+Y): sets the ring cursor to the newest entry
and inserts it. -/
def yank (f : InputField) : InputField :=
  if f.killRing.isEmpty then f
  else insertText { f with killRingIndex := f.killRing.length - 1 } (f.killRing.getLastD [])

/-- InputField::yankPop (Alt+Y): removes the byte length of the current
ring entry before the cursor when the cursor is at least that far in, then
steps the ring cursor to the next older entry (wrapping to the newest) and
inserts it. -/
def yankPop (f : InputField) : InputField :=
  if f.killRing.isEmpty then f
  else
    let f1 :=
      if f.killRingIndex < f.killRing.length then
        let prev := f.killRing.getD f.killRingIndex []
        if prev.length ≤ f.cursor then
          { f with buffer := eraseRange f.buffer (f.cursor - prev.length) prev.length,
                   cursor := f.cursor - prev.length }
        else f
      else f
    let idx := if f.killRingIndex = 0 then f.killRing.length - 1 else f.killRingIndex - 1
    insertText { f1 with killRingIndex := idx } (f.killRing.getD idx [])

/-- InputField::historyPrev (Up / Ctrl+P). -/
def historyPrev (f : InputField) : InputField :=
  if f.history.isEmpty then f
  else
    let f1 := if f.historyIndex = f.history.length then { f with savedLine := f.buffer } else f
    if 0 < f.historyIndex then
      let buf := f.history.getD (f.historyIndex - 1) []
      { f1 with historyIndex := f.historyIndex - 1, buffer := buf, cursor := buf.length }
    else f1

/-- InputField::historyNext (Down / Ctrl+N). -/
def historyNext (f : InputField) : InputField :=
  if f.history.length ≤ f.historyIndex then f
  else
    if f.historyIndex + 1 = f.history.length then
      { f with historyIndex := f.historyIndex + 1, buffer := f.savedLine, savedLine := [],
               cursor := f.savedLine.length }
    else
      let buf := f.history.getD (f.historyIndex + 1) []
      { f with historyIndex := f.historyIndex + 1, buffer := buf, cursor := buf.length }

/-- InputField::transpose (Ctrl+T). -/
def transpose (f : InputField) : InputField :=
  if f.cursor = 0 ∨ f.buffer.length < 2 then f
  else
    let pos := if f.cursor = f.buffer.length then prevGraphemeCluster f.buffer f.cursor
               else f.cursor
    let prevPos := prevGraphemeCluster f.buffer pos
    let nextPos := nextGraphemeCluster f.buffer pos
    let first := substr f.buffer prevPos (pos - prevPos)
    let second := substr f.buffer pos (nextPos - pos)
    { f with buffer := f.buffer.take prevPos ++ (second ++ first)
                         ++ f.buffer.drop (prevPos + (nextPos - prevPos)),
             cursor := nextPos }

/-- InputField::addHistory: skips empty entries and immediate duplicates,
evicts the oldest entry beyond the maximum, and resets the history cursor
past the newest entry. -/
def addHistory (f : InputField) (entry : List Nat) : InputField :=
  if entry.isEmpty then f
  else if !f.history.isEmpty && f.history.getLastD [] = entry then f
  else
    let h1 := f.history ++ [entry]
    let h2 := if f.maxHistory < h1.length then h1.drop 1 else h1
    { f with history := h2, historyIndex := h2.length }

/-- The Ctrl+letter dispatch of InputField::handleKey (the switch over the
codepoint; none models the default: break fall-through). -/
def ctrlCombo (f : InputField) (cp : Nat) : Option (InputField × InputFieldAction) :=
  if cp = 97 then Option.some ({ moveToStart f with lastWasKill := false },
    InputFieldAction.changed)
  else if cp = 101 then Option.some ({ moveToEnd f with lastWasKill := false },
    InputFieldAction.changed)
  else if cp = 102 then Option.some ({ moveForwardChar f with lastWasKill := false },
    InputFieldAction.changed)
  else if cp = 98 then Option.some ({ moveBackwardChar f with lastWasKill := false },
    InputFieldAction.changed)
  else if cp = 112 then Option.some ({ historyPrev f with lastWasKill := false },
    InputFieldAction.changed)
  else if cp = 110 then Option.some ({ historyNext f with lastWasKill := false },
    InputFieldAction.changed)
  else if cp = 107 then Option.some (killToEnd f, InputFieldAction.changed)
  else if cp = 117 then Option.some (killToStart f, InputFieldAction.changed)
  else if cp = 119 then Option.some (killWordBackward f, InputFieldAction.changed)
  else if cp = 121 then Option.some ({ yank f with lastWasKill := false },
    InputFieldAction.changed)
  else if cp = 116 then Option.some ({ transpose f with lastWasKill := false },
    InputFieldAction.changed)
  else if cp = 100 then
    Option.some (if f.buffer.isEmpty then (f, InputFieldAction.eof)
      else ({ deleteChar f with lastWasKill := false }, InputFieldAction.changed))
  else if cp = 99 then Option.some (f, InputFieldAction.abort)
  else Option.none

/-- The Alt+letter dispatch of InputField::handleKey. -/
def altCombo (f : InputField) (cp : Nat) : Option (InputField × InputFieldAction) :=
  if cp = 102 then Option.some ({ moveForwardWord f with lastWasKill := false },
    InputFieldAction.changed)
  else if cp = 98 then Option.some ({ moveBackwardWord f with lastWasKill := false },
    InputFieldAction.changed)
  else if cp = 100 then Option.some (killWord f, InputFieldAction.changed)
  else if cp = 121 then Option.some ({ yankPop f with lastWasKill := false },
    InputFieldAction.changed)
  else Option.none

/-- The special-key switch at the top of InputField::handleKey. -/
def specialKey (f : InputField) (k : KeyEvent) (ctrl alt : Bool) :
    Option (InputField × InputFieldAction) :=
  if k.key = KeyCode.enter then
    Option.some ({ f with lastWasKill := false }, InputFieldAction.submit)
  else if k.key = KeyCode.tab then
    Option.some ({ f with lastWasKill := false }, InputFieldAction.none)
  else if k.key = KeyCode.escape then
    Option.some ({ f with lastWasKill := false }, InputFieldAction.none)
  else if k.key = KeyCode.backspace then
    Option.some (if ctrl || alt then (killWordBackward f, InputFieldAction.changed)
      else ({ deleteCharBackward f with lastWasKill := false }, InputFieldAction.changed))
  else if k.key = KeyCode.delete then
    Option.some ({ deleteChar f with lastWasKill := false }, InputFieldAction.changed)
  else if k.key = KeyCode.up then
    Option.some ({ historyPrev f with lastWasKill := false }, InputFieldAction.changed)
  else if k.key = KeyCode.down then
    Option.some ({ historyNext f with lastWasKill := false }, InputFieldAction.changed)
  else if k.key = KeyCode.left then
    Option.some (if ctrl then ({ moveBackwardWord f with lastWasKill := false },
        InputFieldAction.changed)
      else ({ moveBackwardChar f with lastWasKill := false }, InputFieldAction.changed))
  else if k.key = KeyCode.right then
    Option.some (if ctrl then ({ moveForwardWord f with lastWasKill := false },
        InputFieldAction.changed)
      else ({ moveForwardChar f with lastWasKill := false }, InputFieldAction.changed))
  else if k.key = KeyCode.home then
    Option.some ({ moveToStart f with lastWasKill := false }, InputFieldAction.changed)
  else if k.key = KeyCode.«end» then
    Option.some ({ moveToEnd f with lastWasKill := false }, InputFieldAction.changed)
  else Option.none

/-- InputField::handleKey: special keys first, then Ctrl+letter, then
Alt+letter, then printable insertion; anything else is not consumed. -/
def handleKey (f : InputField) (k : KeyEvent) : InputField × InputFieldAction :=
  let ctrl := hasCtrl k.modifiers
  let alt := hasAlt k.modifiers
  match specialKey f k ctrl alt with
  | Option.some r => r
  | Option.none =>
    match (if ctrl && k.codepoint != 0 then ctrlCombo f k.codepoint else Option.none) with
    | Option.some r => r
    | Option.none =>
      match (if alt && k.codepoint != 0 then altCombo f k.codepoint else Option.none) with
      | Option.some r => r
      | Option.none =>
        if k.codepoint != 0 && !ctrl && !alt && isPrintable k.key then
          ({ insertCodepoint f k.codepoint with lastWasKill := false }, InputFieldAction.changed)
        else (f, InputFieldAction.none)

/-- InputField::processEvent: key events go to handleKey, pastes insert
verbatim, all other events yield None. -/
def processEvent (f : InputField) (e : InputEvent) : InputField × InputFieldAction :=
  match e with
  | InputEvent.key k => handleKey f k
  | InputEvent.paste t => ({ insertText f t with lastWasKill := false }, InputFieldAction.changed)
  | _ => (f, InputFieldAction.none)

/-- Folds a sequence of input events over a field, keeping the state. -/
def applyEvents (f : InputField) (es : List InputEvent) : InputField :=
  es.foldl (fun g e => (processEvent g e).1) f

/-! ### Claim C8: Ctrl+D is Eof exactly on the empty buffer, Delete otherwise -/

/-- **C8.** For every InputField, processing Ctrl+D (the key event the
decoder produces for byte 0x04: key and codepoint 100, Ctrl set) returns
Eof exactly when the buffer is empty; on a non-empty buffer it instead
deletes the grapheme cluster at the cursor without moving the cursor,
resulting in exactly the state the Delete key would produce, and returns
Changed. -/
theorem ctrl_d_eof_iff_empty (f : InputField) (sh al su : Bool) :
    ((processEvent f (InputEvent.key
        { key := 100, modifiers := ⟨sh, al, true, su⟩, codepoint := 100 })).2
      = InputFieldAction.eof ↔ f.buffer = []) ∧
    (f.buffer ≠ [] →
      processEvent f (InputEvent.key
          { key := 100, modifiers := ⟨sh, al, true, su⟩, codepoint := 100 }) =
        ({ deleteChar f with lastWasKill := false }, InputFieldAction.changed) ∧
      (processEvent f (InputEvent.key
          { key := 100, modifiers := ⟨sh, al, true, su⟩, codepoint := 100 })).1 =
        (processEvent f (InputEvent.key
          { key := KeyCode.delete, modifiers := ⟨sh, al, true, su⟩, codepoint := 0 })).1) := by
  have hd : processEvent f (InputEvent.key
      { key := KeyCode.delete, modifiers := ⟨sh, al, true, su⟩, codepoint := 0 }) =
      ({ deleteChar f with lastWasKill := false }, InputFieldAction.changed) := by
    simp [processEvent, handleKey, specialKey, hasCtrl, hasAlt, KeyCode.enter, KeyCode.tab,
      KeyCode.escape, KeyCode.backspace, KeyCode.delete]
  have hc : processEvent f (InputEvent.key
      { key := 100, modifiers := ⟨sh, al, true, su⟩, codepoint := 100 }) =
      (if f.buffer.isEmpty then (f, InputFieldAction.eof)
       else ({ deleteChar f with lastWasKill := false }, InputFieldAction.changed)) := by
    simp [processEvent, handleKey, specialKey, ctrlCombo, hasCtrl, hasAlt, KeyCode.enter,
      KeyCode.tab, KeyCode.escape, KeyCode.backspace, KeyCode.delete, KeyCode.up, KeyCode.down,
      KeyCode.left, KeyCode.right, KeyCode.home, KeyCode.«end»]
  by_cases hb : f.buffer = []
  · rw [hc]
    simp [hb]
  · rw [hc]
    constructor
    · simp [List.isEmpty_iff, hb]
    · intro _
      rw [hd]
      simp [List.isEmpty_iff, hb]

/-- The Ctrl+D key event as the decoder produces it for byte 0x04. -/
def ctrlDEvent : InputEvent :=
  InputEvent.key { key := 100, modifiers := ⟨false, false, true, false⟩, codepoint := 100 }

/-- A field holding the single byte for the letter x. -/
def fieldWithX : InputField :=
  applyEvents {} [InputEvent.key { key := 120, codepoint := 120 }]

theorem ctrl_d_eof_iff_empty_witness :
    ((({} : InputField).buffer = []) ∧
      (processEvent ({} : InputField) ctrlDEvent).2 = InputFieldAction.eof) ∧
    (fieldWithX.buffer ≠ [] ∧
      (processEvent fieldWithX ctrlDEvent).2 = InputFieldAction.changed) := by
  refine ⟨⟨rfl, ?_⟩, ⟨by decide, ?_⟩⟩
  · exact (ctrl_d_eof_iff_empty ({} : InputField) false false false).1.mpr rfl
  · have h := ((ctrl_d_eof_iff_empty fieldWithX false false false).2 (by decide)).1
    rw [show ctrlDEvent = InputEvent.key
      { key := 100, modifiers := ⟨false, false, true, false⟩, codepoint := 100 } from rfl, h]

/-! ### Claim C6: history round trip saves and restores the edit line -/

/-- **C6.** With history ["first", "second"] and the history cursor past
the newest entry, for any uncommitted buffer contents b: the first Up
saves b into the saved-line slot and shows "second"; a second Up shows
"first"; Down shows "second" again; a final Down restores b (even an
empty b) and clears the saved slot. -/
theorem history_round_trip (b pr sl : List Nat) (c mh kri mxl : Nat)
    (kr : List (List Nat)) (lwk ml : Bool) :
    (applyEvents
        { buffer := b, cursor := c, prompt := pr, multiline := ml, maxLines := mxl,
          history := [[102, 105, 114, 115, 116], [115, 101, 99, 111, 110, 100]],
          historyIndex := 2, savedLine := sl, maxHistory := mh, killRing := kr,
          killRingIndex := kri, lastWasKill := lwk }
        [InputEvent.key { key := KeyCode.up }]).savedLine = b ∧
    (applyEvents
        { buffer := b, cursor := c, prompt := pr, multiline := ml, maxLines := mxl,
          history := [[102, 105, 114, 115, 116], [115, 101, 99, 111, 110, 100]],
          historyIndex := 2, savedLine := sl, maxHistory := mh, killRing := kr,
          killRingIndex := kri, lastWasKill := lwk }
        [InputEvent.key { key := KeyCode.up }]).buffer = [115, 101, 99, 111, 110, 100] ∧
    (applyEvents
        { buffer := b, cursor := c, prompt := pr, multiline := ml, maxLines := mxl,
          history := [[102, 105, 114, 115, 116], [115, 101, 99, 111, 110, 100]],
          historyIndex := 2, savedLine := sl, maxHistory := mh, killRing := kr,
          killRingIndex := kri, lastWasKill := lwk }
        [InputEvent.key { key := KeyCode.up },
         InputEvent.key { key := KeyCode.up }]).buffer = [102, 105, 114, 115, 116] ∧
    (applyEvents
        { buffer := b, cursor := c, prompt := pr, multiline := ml, maxLines := mxl,
          history := [[102, 105, 114, 115, 116], [115, 101, 99, 111, 110, 100]],
          historyIndex := 2, savedLine := sl, maxHistory := mh, killRing := kr,
          killRingIndex := kri, lastWasKill := lwk }
        [InputEvent.key { key := KeyCode.up }, InputEvent.key { key := KeyCode.up },
         InputEvent.key { key := KeyCode.down }]).buffer = [115, 101, 99, 111, 110, 100] ∧
    (applyEvents
        { buffer := b, cursor := c, prompt := pr, multiline := ml, maxLines := mxl,
          history := [[102, 105, 114, 115, 116], [115, 101, 99, 111, 110, 100]],
          historyIndex := 2, savedLine := sl, maxHistory := mh, killRing := kr,
          killRingIndex := kri, lastWasKill := lwk }
        [InputEvent.key { key := KeyCode.up }, InputEvent.key { key := KeyCode.up },
         InputEvent.key { key := KeyCode.down },
         InputEvent.key { key := KeyCode.down }]).buffer = b ∧
    (applyEvents
        { buffer := b, cursor := c, prompt := pr, multiline := ml, maxLines := mxl,
          history := [[102, 105, 114, 115, 116], [115, 101, 99, 111, 110, 100]],
          historyIndex := 2, savedLine := sl, maxHistory := mh, killRing := kr,
          killRingIndex := kri, lastWasKill := lwk }
        [InputEvent.key { key := KeyCode.up }, InputEvent.key { key := KeyCode.up },
         InputEvent.key { key := KeyCode.down },
         InputEvent.key { key := KeyCode.down }]).savedLine = [] := by
  refine ⟨?_, ?_, ?_, ?_, ?_, ?_⟩ <;>
    simp [applyEvents, processEvent, handleKey, specialKey, hasCtrl, hasAlt, KeyCode.enter,
      KeyCode.tab, KeyCode.escape, KeyCode.backspace, KeyCode.delete, KeyCode.up, KeyCode.down,
      historyPrev, historyNext]

/-! ### Claim C5: yank-pop -/

/-- **C5 counterexample.** Type "ab", kill it (Ctrl+A Ctrl+K, ring now
["ab"]), yank it back (Ctrl+Y, buffer "ab"), type "c" (buffer "abc",
cursor 3).  The two bytes before the cursor are now "bc", not the
previously yanked "ab", so by the claim yank-pop must not remove anything
and the result would be "abcab"; the code removes two bytes blindly and
yields "aab". -/
theorem yank_pop_counterexample :
    (applyEvents {}
        [InputEvent.key { key := 97, codepoint := 97 },
         InputEvent.key { key := 98, codepoint := 98 },
         InputEvent.key { key := 97, modifiers := ⟨false, false, true, false⟩, codepoint := 97 },
         InputEvent.key { key := 107, modifiers := ⟨false, false, true, false⟩, codepoint := 107 },
         InputEvent.key { key := 121, modifiers := ⟨false, false, true, false⟩, codepoint := 121 },
         InputEvent.key { key := 99, codepoint := 99 },
         InputEvent.key { key := 121, modifiers := ⟨false, true, false, false⟩,
                          codepoint := 121 }]).buffer = [97, 97, 98] ∧
    ([97, 97, 98] : List Nat) ≠ [97, 98, 99, 97, 98] := by
  exact ⟨by decide, by decide⟩

/-- **C5 (amended).** For every InputField with a non-empty kill ring, a
valid ring index and a cursor at least as far in as the current ring
entry's byte length, yank-pop removes exactly that many bytes immediately
before the cursor — without checking that they equal the previously yanked
text — then steps the ring index to the next older entry (wrapping from
index 0 back to the newest) and inserts that entry at the moved cursor. -/
theorem yank_pop_amended (f : InputField)
    (hcl : f.cursor ≤ f.buffer.length)
    (hidx : f.killRingIndex < f.killRing.length)
    (hcur : (f.killRing.getD f.killRingIndex []).length ≤ f.cursor) :
    (yankPop f).buffer =
      f.buffer.take (f.cursor - (f.killRing.getD f.killRingIndex []).length) ++
        f.killRing.getD (if f.killRingIndex = 0 then f.killRing.length - 1
          else f.killRingIndex - 1) [] ++
        f.buffer.drop f.cursor ∧
    (yankPop f).cursor =
      f.cursor - (f.killRing.getD f.killRingIndex []).length +
        (f.killRing.getD (if f.killRingIndex = 0 then f.killRing.length - 1
          else f.killRingIndex - 1) []).length ∧
    (yankPop f).killRingIndex = (if f.killRingIndex = 0 then f.killRing.length - 1
      else f.killRingIndex - 1) ∧
    (yankPop f).killRing = f.killRing := by
  have hne : f.killRing.isEmpty = false := by
    rcases hr : f.killRing with _ | _
    · rw [hr] at hidx; simp at hidx
    · rfl
  unfold yankPop
  rw [hne]
  simp only [Bool.false_eq_true, if_false, if_pos hidx, if_pos hcur, insertText, eraseRange]
  set plen := (f.killRing.getD f.killRingIndex []).length with hplen
  have h1 : f.cursor - plen + plen = f.cursor := by omega
  have h2 : f.cursor - plen ≤ f.buffer.length := by omega
  have htake : (f.buffer.take (f.cursor - plen)).length = f.cursor - plen := by
    simp [List.length_take]
    omega
  have ht : (f.buffer.take (f.cursor - plen) ++ f.buffer.drop f.cursor).take
      (f.cursor - plen) = f.buffer.take (f.cursor - plen) := by
    rw [List.take_append_eq_append_take, htake]
    simp
  have hd : (f.buffer.take (f.cursor - plen) ++ f.buffer.drop f.cursor).drop
      (f.cursor - plen) = f.buffer.drop f.cursor := by
    rw [List.drop_append_eq_append_drop, htake]
    simp
  refine ⟨?_, ?_, ?_, ?_⟩ <;> simp only [h1, ht, hd] <;> trivial

/-- A field with buffer "ab", cursor 2 and kill ring ["c", "ab"] pointing
at the newest entry. -/
def yankPopSample : InputField :=
  { buffer := [97, 98], cursor := 2, killRing := [[99], [97, 98]], killRingIndex := 1 }

theorem yank_pop_amended_witness :
    (yankPopSample.cursor ≤ yankPopSample.buffer.length ∧
      yankPopSample.killRingIndex < yankPopSample.killRing.length ∧
      (yankPopSample.killRing.getD yankPopSample.killRingIndex []).length
        ≤ yankPopSample.cursor) ∧
    (yankPop yankPopSample).buffer = [99] := by
  refine ⟨⟨by decide, by decide, by decide⟩, ?_⟩
  have h := (yank_pop_amended yankPopSample (by decide) (by decide) (by decide)).1
  rw [h]
  decide

/-! ### Claim C1: multiline Enter handling -/

/-- Modelled from the spec: the multiline members of InputField
(setMultiline, setMaxLines, lineCount, insertNewline and the multiline
Enter branch of handleKey) are declared in src/tui/InputField.hpp and
exercised by src/tests/TuiTests.cpp and src/mychat/App.cpp, but their
definitions are not among the sources under src/.  The line count of a
buffer is the number of newline bytes plus one. -/
def lineCountOf (s : List Nat) : Nat := s.count 0x0A + 1

/-- Modelled from the spec: insertNewline inserts a newline at the cursor,
rejected (a no-op) if inserting would exceed the configured maximum line
count; maxLines = 0 means unlimited. -/
def insertNewline (f : InputField) : InputField :=
  if 0 < f.maxLines ∧ f.maxLines ≤ lineCountOf f.buffer then f
  else insertText f [0x0A]

/-- Modelled from the spec: in multiline mode, Enter submits unless Shift
or Alt is held, in which case a newline is inserted at the cursor. -/
def handleEnterMultiline (f : InputField) (mods : Modifier) :
    InputField × InputFieldAction :=
  if f.multiline && (mods.shift || mods.alt) then
    ({ insertNewline f with lastWasKill := false }, InputFieldAction.changed)
  else ({ f with lastWasKill := false }, InputFieldAction.submit)

/-- **C1.** In multiline mode, an Enter key event with Shift or Alt held
does not submit: it returns Changed and inserts a newline at the cursor,
except that the insertion is a no-op (buffer unchanged) whenever it would
push the line count past the configured maximum; in particular with
maxLines = 2 and two lines present the line count stays 2. -/
theorem multiline_shifted_enter (f : InputField) (mods : Modifier)
    (hml : f.multiline = true) (hheld : mods.shift = true ∨ mods.alt = true) :
    (handleEnterMultiline f mods).2 ≠ InputFieldAction.submit ∧
    (handleEnterMultiline f mods).2 = InputFieldAction.changed ∧
    (handleEnterMultiline f mods).1.buffer =
      (if 0 < f.maxLines ∧ f.maxLines ≤ lineCountOf f.buffer then f.buffer
       else f.buffer.take f.cursor ++ [0x0A] ++ f.buffer.drop f.cursor) ∧
    (0 < f.maxLines → f.maxLines ≤ lineCountOf f.buffer →
      (handleEnterMultiline f mods).1.buffer = f.buffer) ∧
    (f.maxLines = 2 → lineCountOf f.buffer = 2 →
      lineCountOf (handleEnterMultiline f mods).1.buffer = 2) := by
  have hcond : (f.multiline && (mods.shift || mods.alt)) = true := by
    rcases hheld with h | h <;> simp [hml, h]
  unfold handleEnterMultiline
  rw [hcond]
  simp only [if_true]
  unfold insertNewline
  by_cases hmax : 0 < f.maxLines ∧ f.maxLines ≤ lineCountOf f.buffer
  · rw [if_pos hmax]
    refine ⟨by simp, by trivial, by rw [if_pos hmax], fun _ _ => rfl,
      fun _ h2 => by simpa using h2⟩
  · rw [if_neg hmax]
    refine ⟨by simp, by trivial, by rw [if_neg hmax]; rfl, ?_, ?_⟩
    · intro h1 h2
      exact absurd ⟨h1, h2⟩ hmax
    · intro h1 h2
      exact absurd ⟨by omega, by omega⟩ hmax

theorem multiline_shifted_enter_witness :
    (({ buffer := [97, 0x0A, 98], cursor := 3, multiline := true,
        maxLines := 2 } : InputField).multiline = true ∧
      ((⟨true, false, false, false⟩ : Modifier).shift = true ∨
        (⟨true, false, false, false⟩ : Modifier).alt = true)) ∧
    (handleEnterMultiline
        { buffer := [97, 0x0A, 98], cursor := 3, multiline := true, maxLines := 2 }
        ⟨true, false, false, false⟩).2 = InputFieldAction.changed ∧
    lineCountOf (handleEnterMultiline
        { buffer := [97, 0x0A, 98], cursor := 3, multiline := true, maxLines := 2 }
        ⟨true, false, false, false⟩).1.buffer = 2 := by
  refine ⟨⟨rfl, Or.inl rfl⟩, ?_, ?_⟩
  · exact (multiline_shifted_enter
      { buffer := [97, 0x0A, 98], cursor := 3, multiline := true, maxLines := 2 }
      ⟨true, false, false, false⟩ rfl (Or.inl rfl)).2.1
  · exact (multiline_shifted_enter
      { buffer := [97, 0x0A, 98], cursor := 3, multiline := true, maxLines := 2 }
      ⟨true, false, false, false⟩ rfl (Or.inl rfl)).2.2.2.2 rfl (by decide)

/-! ## The raw-mode coordinator (TerminalInput, src/tui/TerminalInput.cpp)

The coordinator performs I/O (termios calls, capability writes, pipe
management); we model its private state together with the trace of
externally visible effects each call produces.  All operations are total
functions, so no call can throw or crash. -/

/-- The externally visible effects of TerminalInput's operations: the two
tcsetattr calls, the capability enable/disable writes, and closing a file
descriptor. -/
inductive TermEffect where
  | setRawMode
  | restoreTermios
  | writeEnableKitty
  | writeEnableMouseTracking
  | writeEnableSgrMouse
  | writeEnableBracketedPaste
  | writeDisableBracketedPaste
  | writeDisableSgrMouse
  | writeDisableMouseTracking
  | writeDisableKitty
  | closeFd (fd : Int)
deriving DecidableEq, Repr

/-- TerminalInput's private state (src/tui/TerminalInput.hpp): the input
fd, the raw-mode flag, and the two ends of the resize self-pipe (-1 when
not open). -/
structure TerminalInput where
  fd : Int := 0
  rawMode : Bool := false
  resizePipe0 : Int := -1
  resizePipe1 : Int := -1
deriving DecidableEq, Repr

/-- TerminalInput::enableProtocols: the four capability enable writes, in
source order. -/
def enableProtocolsEffects : List TermEffect :=
  [TermEffect.writeEnableKitty, TermEffect.writeEnableMouseTracking,
   TermEffect.writeEnableSgrMouse, TermEffect.writeEnableBracketedPaste]

/-- TerminalInput::disableProtocols: the four capability disable writes,
in source order (the reverse pairing of the enables). -/
def disableProtocolsEffects : List TermEffect :=
  [TermEffect.writeDisableBracketedPaste, TermEffect.writeDisableSgrMouse,
   TermEffect.writeDisableMouseTracking, TermEffect.writeDisableKitty]

/-- TerminalInput::initialize (modelled as initTerminal; the source name is a reserved word here): sets the fd; a pipe-creation failure
returns the error before any raw-mode switch or capability negotiation;
on success the pipe fds are stored, raw mode is entered and the
capabilities enabled.  The Bool result is the VoidResult success flag. -/
def initTerminal (t : TerminalInput) (pipeOk : Bool) (fd0 fd1 : Int) :
    TerminalInput × List TermEffect × Bool :=
  if pipeOk = false then ({ t with fd := 0 }, [], false)
  else
    ({ t with fd := 0, resizePipe0 := fd0, resizePipe1 := fd1, rawMode := true },
     TermEffect.setRawMode :: enableProtocolsEffects, true)

/-- TerminalInput::shutdown: when raw mode is active, writes the disable
sequences and restores the saved terminal mode; when the resize pipe is
open, closes both ends and marks them closed. -/
def shutdown (t : TerminalInput) : TerminalInput × List TermEffect :=
  let e1 := if t.rawMode then disableProtocolsEffects ++ [TermEffect.restoreTermios] else []
  let t1 := if t.rawMode then { t with rawMode := false } else t
  if t1.resizePipe0 ≠ -1 then
    ({ t1 with resizePipe0 := -1, resizePipe1 := -1 },
     e1 ++ [TermEffect.closeFd t1.resizePipe0, TermEffect.closeFd t1.resizePipe1])
  else (t1, e1)

/-- **C10.** shutdown is idempotent: on any coordinator state the second
of two consecutive shutdown calls performs no effect and leaves the state
unchanged.  Moreover, starting from a fresh coordinator and either
initialize() outcome: after a successful initialize, two consecutive
shutdowns restore the terminal mode exactly once, write each
capability-disable sequence exactly once and close each pipe fd exactly
once; after a partial initialize failure (pipe creation failed, so the
mode was never switched), both shutdowns are no-ops.  Totality of the
model is the no-throw/no-crash property. -/
theorem shutdown_idempotent (pipeOk : Bool) (fd0 fd1 : Int)
    (hfd0 : fd0 ≠ -1) (hne : fd0 ≠ fd1) :
    (∀ t : TerminalInput, shutdown (shutdown t).1 = ((shutdown t).1, [])) ∧
    ((shutdown (shutdown (initTerminal {} pipeOk fd0 fd1).1).1).2 = [] ∧
      ((shutdown (initTerminal {} pipeOk fd0 fd1).1).2 ++
          (shutdown (shutdown (initTerminal {} pipeOk fd0 fd1).1).1).2).count
        TermEffect.restoreTermios = (if pipeOk then 1 else 0) ∧
      ((shutdown (initTerminal {} pipeOk fd0 fd1).1).2 ++
          (shutdown (shutdown (initTerminal {} pipeOk fd0 fd1).1).1).2).count
        TermEffect.writeDisableKitty = (if pipeOk then 1 else 0) ∧
      ((shutdown (initTerminal {} pipeOk fd0 fd1).1).2 ++
          (shutdown (shutdown (initTerminal {} pipeOk fd0 fd1).1).1).2).count
        TermEffect.writeDisableSgrMouse = (if pipeOk then 1 else 0) ∧
      ((shutdown (initTerminal {} pipeOk fd0 fd1).1).2 ++
          (shutdown (shutdown (initTerminal {} pipeOk fd0 fd1).1).1).2).count
        TermEffect.writeDisableMouseTracking = (if pipeOk then 1 else 0) ∧
      ((shutdown (initTerminal {} pipeOk fd0 fd1).1).2 ++
          (shutdown (shutdown (initTerminal {} pipeOk fd0 fd1).1).1).2).count
        TermEffect.writeDisableBracketedPaste = (if pipeOk then 1 else 0) ∧
      ((shutdown (initTerminal {} pipeOk fd0 fd1).1).2 ++
          (shutdown (shutdown (initTerminal {} pipeOk fd0 fd1).1).1).2).count
        (TermEffect.closeFd fd0) = (if pipeOk then 1 else 0)) := by
  have hidem : ∀ t : TerminalInput, shutdown (shutdown t).1 = ((shutdown t).1, []) := by
    intro t
    unfold shutdown
    rcases t with ⟨tfd, raw, p0, p1⟩
    rcases raw <;> by_cases hp : p0 = (-1 : Int) <;>
      simp_all [disableProtocolsEffects]
  refine ⟨hidem, ?_⟩
  rw [hidem (initTerminal {} pipeOk fd0 fd1).1]
  rcases pipeOk with _ | _
  · simp [initTerminal, shutdown]
  · simp only [initTerminal, Bool.true_eq_false, if_neg, ite_false, Bool.false_eq_true]
    unfold shutdown
    simp only [if_pos rfl]
    simp [hfd0, disableProtocolsEffects, enableProtocolsEffects, List.count_cons,
      List.count_append, hne, Ne.symm hne]

theorem shutdown_idempotent_witness :
    ((3 : Int) ≠ -1 ∧ (3 : Int) ≠ 4) ∧
    ((shutdown (initTerminal {} true 3 4).1).2 ++
        (shutdown (shutdown (initTerminal {} true 3 4).1).1).2).count
      TermEffect.restoreTermios = 1 := by
  refine ⟨⟨by decide, by decide⟩, ?_⟩
  have h := (shutdown_idempotent true 3 4 (by decide) (by decide)).2.2.1
  simpa using h

/-! ### Claim C3: cursor boundary infrastructure -/

/-- A byte offset is a codepoint boundary of a (valid UTF-8) byte string
when it is in range and does not point at a continuation byte. -/
def isBoundary (s : List Nat) (p : Nat) : Prop :=
  p ≤ s.length ∧ (p < s.length → isContByte (s.getD p 0) = false)

/-- Modelled from the spec (as for the segmenter): a byte offset is a
grapheme-cluster boundary when it is 0, the length, or a codepoint start
whose codepoint does not extend the previous cluster. -/
def isGraphemeBoundary (s : List Nat) (p : Nat) : Prop :=
  p = 0 ∨ p = s.length ∨
    (p < s.length ∧ isContByte (s.getD p 0) = false ∧
      isGraphemeExtendCp (decodeCpAt s p) = false)

instance (s : List Nat) (p : Nat) : Decidable (isBoundary s p) :=
  if h : p ≤ s.length then
    if h2 : p < s.length then
      if h3 : isContByte (s.getD p 0) = false then Decidable.isTrue ⟨h, fun _ => h3⟩
      else Decidable.isFalse (fun hb => h3 (hb.2 h2))
    else Decidable.isTrue ⟨h, fun hlt => absurd hlt h2⟩
  else Decidable.isFalse (fun hb => h hb.1)

instance (s : List Nat) (p : Nat) : Decidable (isGraphemeBoundary s p) :=
  decidable_of_iff (p = 0 ∨ p = s.length ∨
    (p < s.length ∧ isContByte (s.getD p 0) = false ∧
      isGraphemeExtendCp (decodeCpAt s p) = false)) Iff.rfl

theorem isBoundary_length (s : List Nat) : isBoundary s s.length :=
  ⟨Nat.le_refl _, fun h => absurd h (Nat.lt_irrefl _)⟩

/-- The element just past a takeWhile run fails the predicate. -/
theorem takeWhile_stop (P : Nat → Bool) (l : List Nat) (d : Nat) :
    (l.takeWhile P).length ≤ l.length ∧
    ((l.takeWhile P).length < l.length → P (l.getD (l.takeWhile P).length d) = false) := by
  induction l with
  | nil => exact ⟨Nat.le_refl _, fun h => absurd h (Nat.lt_irrefl _)⟩
  | cons a t ih =>
    by_cases ha : P a = true
    · rw [List.takeWhile_cons, if_pos ha]
      refine ⟨by simpa using ih.1, fun h => ?_⟩
      simpa using ih.2 (by simpa using h)
    · rw [List.takeWhile_cons, if_neg ha]
      exact ⟨by simp, fun _ => by simpa using ha⟩

theorem getD_drop (s : List Nat) (m k d : Nat) : (s.drop m).getD k d = s.getD (m + k) d := by
  simp [List.getD, List.getElem?_drop]

theorem getD_append_right (xs ys : List Nat) (k d : Nat) :
    (xs ++ ys).getD (xs.length + k) d = ys.getD k d := by
  simp [List.getD, List.getElem?_append_right (by omega : xs.length ≤ xs.length + k)]

theorem nextUtf8_le (s : List Nat) (p : Nat) (h : p ≤ s.length) : nextUtf8 s p ≤ s.length := by
  unfold nextUtf8
  split
  · omega
  · have hts := (takeWhile_stop isContByte (s.drop (p + 1)) 0).1
    have hd : (s.drop (p + 1)).length = s.length - (p + 1) := by simp
    omega

theorem nextUtf8_boundary (s : List Nat) (p : Nat) (h : p ≤ s.length) :
    isBoundary s (nextUtf8 s p) := by
  unfold nextUtf8
  split
  · exact ⟨by omega, fun hlt => absurd hlt (by omega)⟩
  · rename_i hlt
    have hts := takeWhile_stop isContByte (s.drop (p + 1)) 0
    have hd : (s.drop (p + 1)).length = s.length - (p + 1) := by simp
    refine ⟨by omega, fun hq => ?_⟩
    have hk : ((s.drop (p + 1)).takeWhile isContByte).length < (s.drop (p + 1)).length := by
      omega
    have := hts.2 hk
    rw [getD_drop] at this
    exact this

theorem prevUtf8_le (s : List Nat) (p : Nat) : prevUtf8 s p ≤ p := by
  unfold prevUtf8
  split
  · omega
  · omega

theorem not_cont_of_land (b m c : Nat) (hm : m &&& 0xC0 = 0xC0) (hb : b &&& m = c)
    (hc : c &&& 0xC0 = 0xC0) : isContByte b = false := by
  have h1 : b &&& 0xC0 = 0xC0 := by
    have h0 : (b &&& m) &&& 0xC0 = 0xC0 := by rw [hb, hc]
    rw [Nat.land_assoc, hm] at h0
    exact h0
  have h2 : Nat.land b 0xC0 = 0xC0 := h1
  simp [isContByte, h2]

theorem valid_head_not_cont (b : Nat) (r : List Nat)
    (h : validUtf8 (b :: r) = true) : isContByte b = false := by
  rw [validUtf8] at h
  rw [validUtf8Aux] at h
  split at h
  · rename_i hlt
    have h1 : b &&& 0xC0 ≤ b := Nat.and_le_left
    have h2 : Nat.land b 0xC0 ≤ b := h1
    simp only [isContByte, decide_eq_false_iff_not]
    omega
  · split at h
    · rename_i he
      exact not_cont_of_land b 0xE0 0xC0 (by decide) he (by decide)
    · split at h
      · rename_i he
        exact not_cont_of_land b 0xF0 0xE0 (by decide) he (by decide)
      · split at h
        · rename_i he
          exact not_cont_of_land b 0xF8 0xF0 (by decide) he (by decide)
        · exact absurd h (by simp)

theorem valid_boundary_zero (s : List Nat) (h : validUtf8 s = true) : isBoundary s 0 := by
  rcases s with _ | ⟨b, r⟩
  · exact ⟨by simp, by simp⟩
  · exact ⟨by simp, fun _ => valid_head_not_cont b r h⟩

theorem getD_reverse (l : List Nat) (k d : Nat) (h : k < l.length) :
    l.reverse.getD k d = l.getD (l.length - 1 - k) d := by
  simp only [List.getD, List.get?_eq_getElem?]
  rw [List.getElem?_reverse h]

theorem getD_take_of_lt (s : List Nat) (n k d : Nat) (h : k < n) :
    (s.take n).getD k d = s.getD k d := by
  simp only [List.getD, List.get?_eq_getElem?]
  rw [List.getElem?_take_of_lt h]

theorem prevUtf8_boundary (s : List Nat) (p : Nat) (hp : p ≤ s.length)
    (hv : validUtf8 s = true) : isBoundary s (prevUtf8 s p) := by
  unfold prevUtf8
  split
  · exact valid_boundary_zero s hv
  · rename_i hp0
    have hrl : ((s.take p).reverse).length = p := by
      rw [List.length_reverse, List.length_take]
      omega
    have htl : (s.take p).length = p := by
      rw [List.length_take]
      omega
    have hts := takeWhile_stop isContByte (s.take p).reverse 0
    by_cases hmp : (((s.take p).reverse).takeWhile isContByte).length < p
    · have hcont := hts.2 (by omega)
      rw [getD_reverse _ _ _ (by omega)] at hcont
      rw [htl] at hcont
      have htk : (s.take p).getD (p - 1 - (((s.take p).reverse).takeWhile isContByte).length) 0
          = s.getD (p - 1 - (((s.take p).reverse).takeWhile isContByte).length) 0 :=
        getD_take_of_lt s p _ 0 (by omega)
      rw [htk] at hcont
      exact ⟨by omega, fun _ => hcont⟩
    · have hm0 : p - 1 - (((s.take p).reverse).takeWhile isContByte).length = 0 := by omega
      rw [hm0]
      exact valid_boundary_zero s hv

/-- Splicing at codepoint boundaries preserves the boundary at the end of
the inserted text: when position d is a boundary of s, position
a + t.length is a boundary of s.take a ++ t ++ s.drop d. -/
theorem boundary_splice (s t : List Nat) (a d : Nat) (ha : a ≤ d) (hd : d ≤ s.length)
    (hb : isBoundary s d) : isBoundary (s.take a ++ t ++ s.drop d) (a + t.length) := by
  have hta : (s.take a).length = a := by rw [List.length_take]; omega
  have hdl : (s.drop d).length = s.length - d := by simp
  have hlen : (s.take a ++ t ++ s.drop d).length = a + t.length + (s.length - d) := by
    simp only [List.length_append, hta, hdl]
  refine ⟨by omega, fun hlt => ?_⟩
  have hdlt : d < s.length := by omega
  have hul : (s.take a ++ t).length = a + t.length := by
    simp only [List.length_append, hta]
  have hu := getD_append_right (s.take a ++ t) (s.drop d) 0 0
  rw [hul, getD_drop] at hu
  simp only [Nat.add_zero] at hu
  rw [hu]
  exact hb.2 hdlt

/-- Erasing the range [a, d) of s at boundaries leaves position a a
boundary of the result. -/
theorem boundary_erase (s : List Nat) (a d : Nat) (ha : a ≤ d) (hd : d ≤ s.length)
    (hb : isBoundary s d) : isBoundary (s.take a ++ s.drop d) a := by
  have h := boundary_splice s [] a d ha hd hb
  simpa using h

theorem graphemeSkipF_boundary (s : List Nat) (q : Nat) (h : isBoundary s q) :
    isBoundary s (graphemeSkipF s q) := by
  unfold graphemeSkipF
  split
  · rename_i hc
    exact graphemeSkipF_boundary s (nextUtf8 s q) (nextUtf8_boundary s q (Nat.le_of_lt hc.1))
  · exact h
termination_by s.length - q
decreasing_by rename_i hc; exact Nat.sub_lt_sub_left hc.1 (nextUtf8_gt s q hc.1)

theorem graphemeSkipF_ge (s : List Nat) (q : Nat) : q ≤ graphemeSkipF s q := by
  unfold graphemeSkipF
  split
  · rename_i hc
    have h1 := graphemeSkipF_ge s (nextUtf8 s q)
    have h2 := nextUtf8_gt s q hc.1
    omega
  · exact Nat.le_refl q
termination_by s.length - q
decreasing_by rename_i hc; exact Nat.sub_lt_sub_left hc.1 (nextUtf8_gt s q hc.1)

theorem graphemeSkipB_boundary (s : List Nat) (q : Nat) (hv : validUtf8 s = true)
    (hb : isBoundary s q) : isBoundary s (graphemeSkipB s q) := by
  unfold graphemeSkipB
  split
  · rename_i hc
    exact graphemeSkipB_boundary s (prevUtf8 s q) hv (prevUtf8_boundary s q hb.1 hv)
  · exact hb
termination_by q
decreasing_by rename_i hc; exact prevUtf8_lt s q hc.1

theorem graphemeSkipB_le (s : List Nat) (q : Nat) : graphemeSkipB s q ≤ q := by
  unfold graphemeSkipB
  split
  · rename_i hc
    have h1 := graphemeSkipB_le s (prevUtf8 s q)
    have h2 := prevUtf8_lt s q hc.1
    omega
  · exact Nat.le_refl q
termination_by q
decreasing_by rename_i hc; exact prevUtf8_lt s q hc.1

theorem nextGraphemeCluster_boundary (s : List Nat) (pos : Nat)
    (hb : isBoundary s pos) : isBoundary s (nextGraphemeCluster s pos) := by
  unfold nextGraphemeCluster
  split
  · exact hb
  · rename_i hlt
    exact graphemeSkipF_boundary s (nextUtf8 s pos) (nextUtf8_boundary s pos hb.1)

theorem nextGraphemeCluster_ge (s : List Nat) (pos : Nat) :
    pos ≤ nextGraphemeCluster s pos := by
  unfold nextGraphemeCluster
  split
  · exact Nat.le_refl pos
  · rename_i hlt
    have h1 := graphemeSkipF_ge s (nextUtf8 s pos)
    have h2 := nextUtf8_gt s pos (by omega)
    omega

theorem prevGraphemeCluster_boundary (s : List Nat) (pos : Nat) (hv : validUtf8 s = true)
    (hp : pos ≤ s.length) : isBoundary s (prevGraphemeCluster s pos) := by
  unfold prevGraphemeCluster
  split
  · exact valid_boundary_zero s hv
  · exact graphemeSkipB_boundary s (prevUtf8 s pos) hv (prevUtf8_boundary s pos hp hv)

theorem prevGraphemeCluster_le (s : List Nat) (pos : Nat) :
    prevGraphemeCluster s pos ≤ pos := by
  unfold prevGraphemeCluster
  split
  · omega
  · have h1 := graphemeSkipB_le s (prevUtf8 s pos)
    have h2 := prevUtf8_le s pos
    omega

theorem skipNonWordF_boundary (s : List Nat) (q : Nat) (hb : isBoundary s q) :
    isBoundary s (skipNonWordF s q) := by
  unfold skipNonWordF
  split
  · rename_i hc
    exact skipNonWordF_boundary s (nextUtf8 s q) (nextUtf8_boundary s q (Nat.le_of_lt hc.1))
  · exact hb
termination_by s.length - q
decreasing_by rename_i hc; exact Nat.sub_lt_sub_left hc.1 (nextUtf8_gt s q hc.1)

theorem skipNonWordF_ge (s : List Nat) (q : Nat) : q ≤ skipNonWordF s q := by
  unfold skipNonWordF
  split
  · rename_i hc
    have h1 := skipNonWordF_ge s (nextUtf8 s q)
    have h2 := nextUtf8_gt s q hc.1
    omega
  · exact Nat.le_refl q
termination_by s.length - q
decreasing_by rename_i hc; exact Nat.sub_lt_sub_left hc.1 (nextUtf8_gt s q hc.1)

theorem skipWordF_boundary (s : List Nat) (q : Nat) (hb : isBoundary s q) :
    isBoundary s (skipWordF s q) := by
  unfold skipWordF
  split
  · rename_i hc
    exact skipWordF_boundary s (nextUtf8 s q) (nextUtf8_boundary s q (Nat.le_of_lt hc.1))
  · exact hb
termination_by s.length - q
decreasing_by rename_i hc; exact Nat.sub_lt_sub_left hc.1 (nextUtf8_gt s q hc.1)

theorem skipWordF_ge (s : List Nat) (q : Nat) : q ≤ skipWordF s q := by
  unfold skipWordF
  split
  · rename_i hc
    have h1 := skipWordF_ge s (nextUtf8 s q)
    have h2 := nextUtf8_gt s q hc.1
    omega
  · exact Nat.le_refl q
termination_by s.length - q
decreasing_by rename_i hc; exact Nat.sub_lt_sub_left hc.1 (nextUtf8_gt s q hc.1)

theorem skipNonWordB_boundary (s : List Nat) (q : Nat) (hv : validUtf8 s = true)
    (hb : isBoundary s q) : isBoundary s (skipNonWordB s q) := by
  unfold skipNonWordB
  split
  · rename_i hc
    exact skipNonWordB_boundary s (prevUtf8 s q) hv (prevUtf8_boundary s q hb.1 hv)
  · exact hb
termination_by q
decreasing_by rename_i hc; exact prevUtf8_lt s q hc.1

theorem skipNonWordB_le (s : List Nat) (q : Nat) : skipNonWordB s q ≤ q := by
  unfold skipNonWordB
  split
  · rename_i hc
    have h1 := skipNonWordB_le s (prevUtf8 s q)
    have h2 := prevUtf8_lt s q hc.1
    omega
  · exact Nat.le_refl q
termination_by q
decreasing_by rename_i hc; exact prevUtf8_lt s q hc.1

theorem skipWordB_boundary (s : List Nat) (q : Nat) (hv : validUtf8 s = true)
    (hb : isBoundary s q) : isBoundary s (skipWordB s q) := by
  unfold skipWordB
  split
  · rename_i hc
    exact skipWordB_boundary s (prevUtf8 s q) hv (prevUtf8_boundary s q hb.1 hv)
  · exact hb
termination_by q
decreasing_by rename_i hc; exact prevUtf8_lt s q hc.1

theorem skipWordB_le (s : List Nat) (q : Nat) : skipWordB s q ≤ q := by
  unfold skipWordB
  split
  · rename_i hc
    have h1 := skipWordB_le s (prevUtf8 s q)
    have h2 := prevUtf8_lt s q hc.1
    omega
  · exact Nat.le_refl q
termination_by q
decreasing_by rename_i hc; exact prevUtf8_lt s q hc.1

theorem insertText_boundary (f : InputField) (t : List Nat)
    (hb : isBoundary f.buffer f.cursor) :
    isBoundary (insertText f t).buffer (insertText f t).cursor :=
  boundary_splice f.buffer t f.cursor f.cursor (Nat.le_refl _) hb.1 hb

theorem insertCodepoint_boundary (f : InputField) (cp : Nat)
    (hb : isBoundary f.buffer f.cursor) :
    isBoundary (insertCodepoint f cp).buffer (insertCodepoint f cp).cursor :=
  insertText_boundary f (encodeUtf8 cp) hb

theorem moveToStart_boundary (f : InputField) (hv : validUtf8 f.buffer = true) :
    isBoundary (moveToStart f).buffer (moveToStart f).cursor :=
  valid_boundary_zero f.buffer hv

theorem moveToEnd_boundary (f : InputField) :
    isBoundary (moveToEnd f).buffer (moveToEnd f).cursor :=
  isBoundary_length f.buffer

theorem moveForwardChar_boundary (f : InputField) (hb : isBoundary f.buffer f.cursor) :
    isBoundary (moveForwardChar f).buffer (moveForwardChar f).cursor :=
  nextGraphemeCluster_boundary f.buffer f.cursor hb

theorem moveBackwardChar_boundary (f : InputField) (hv : validUtf8 f.buffer = true)
    (hb : isBoundary f.buffer f.cursor) :
    isBoundary (moveBackwardChar f).buffer (moveBackwardChar f).cursor :=
  prevGraphemeCluster_boundary f.buffer f.cursor hv hb.1

theorem moveForwardWord_boundary (f : InputField) (hb : isBoundary f.buffer f.cursor) :
    isBoundary (moveForwardWord f).buffer (moveForwardWord f).cursor :=
  skipWordF_boundary f.buffer _ (skipNonWordF_boundary f.buffer f.cursor hb)

theorem moveBackwardWord_boundary (f : InputField) (hv : validUtf8 f.buffer = true)
    (hb : isBoundary f.buffer f.cursor) :
    isBoundary (moveBackwardWord f).buffer (moveBackwardWord f).cursor :=
  skipWordB_boundary f.buffer _ hv (skipNonWordB_boundary f.buffer f.cursor hv hb)

theorem deleteChar_boundary (f : InputField) (hb : isBoundary f.buffer f.cursor) :
    isBoundary (deleteChar f).buffer (deleteChar f).cursor := by
  unfold deleteChar
  split
  · exact hb
  · have hnb := nextGraphemeCluster_boundary f.buffer f.cursor hb
    have hge := nextGraphemeCluster_ge f.buffer f.cursor
    show isBoundary
      (eraseRange f.buffer f.cursor (nextGraphemeCluster f.buffer f.cursor - f.cursor)) f.cursor
    unfold eraseRange
    have he : f.cursor + (nextGraphemeCluster f.buffer f.cursor - f.cursor)
        = nextGraphemeCluster f.buffer f.cursor := by omega
    rw [he]
    exact boundary_erase f.buffer f.cursor _ hge hnb.1 hnb

theorem deleteCharBackward_boundary (f : InputField) (hb : isBoundary f.buffer f.cursor) :
    isBoundary (deleteCharBackward f).buffer (deleteCharBackward f).cursor := by
  unfold deleteCharBackward
  split
  · exact hb
  · have hle := prevGraphemeCluster_le f.buffer f.cursor
    show isBoundary
      (eraseRange f.buffer (prevGraphemeCluster f.buffer f.cursor)
        (f.cursor - prevGraphemeCluster f.buffer f.cursor))
      (prevGraphemeCluster f.buffer f.cursor)
    unfold eraseRange
    have he : prevGraphemeCluster f.buffer f.cursor
        + (f.cursor - prevGraphemeCluster f.buffer f.cursor) = f.cursor := by omega
    rw [he]
    exact boundary_erase f.buffer _ f.cursor hle hb.1 hb

theorem pushKillRing_state (f : InputField) (t : List Nat) :
    (pushKillRing f t).buffer = f.buffer ∧ (pushKillRing f t).cursor = f.cursor := by
  unfold pushKillRing
  split
  · exact ⟨rfl, rfl⟩
  · split
    · exact ⟨rfl, rfl⟩
    · exact ⟨rfl, rfl⟩

theorem killToEnd_boundary (f : InputField) (hb : isBoundary f.buffer f.cursor) :
    isBoundary (killToEnd f).buffer (killToEnd f).cursor := by
  unfold killToEnd
  dsimp only
  by_cases hc : f.cursor < f.buffer.length
  · rw [if_pos hc, (pushKillRing_state _ _).1, (pushKillRing_state _ _).2]
    show isBoundary (f.buffer.take f.cursor) f.cursor
    have hl : (f.buffer.take f.cursor).length = f.cursor := by
      rw [List.length_take]; omega
    exact ⟨by omega, fun hlt => absurd hlt (by omega)⟩
  · rw [if_neg hc]
    exact hb

theorem killToStart_boundary (f : InputField) (hb : isBoundary f.buffer f.cursor) :
    isBoundary (killToStart f).buffer (killToStart f).cursor := by
  unfold killToStart
  dsimp only
  by_cases hc : 0 < f.cursor
  · rw [if_pos hc, (pushKillRing_state _ _).1, (pushKillRing_state _ _).2]
    show isBoundary (f.buffer.drop f.cursor) 0
    refine ⟨Nat.zero_le _, fun hlt => ?_⟩
    have hdl : (f.buffer.drop f.cursor).length = f.buffer.length - f.cursor := by simp
    have hclt : f.cursor < f.buffer.length := by
      rw [hdl] at hlt
      omega
    have h := getD_drop f.buffer f.cursor 0 0
    simp only [Nat.add_zero] at h
    rw [h]
    exact hb.2 hclt
  · rw [if_neg hc]
    exact hb

theorem killWord_boundary (f : InputField) (hb : isBoundary f.buffer f.cursor) :
    isBoundary (killWord f).buffer (killWord f).cursor := by
  have hbc2 : isBoundary f.buffer (skipWordF f.buffer (skipNonWordF f.buffer f.cursor)) :=
    skipWordF_boundary f.buffer _ (skipNonWordF_boundary f.buffer f.cursor hb)
  have hge : f.cursor ≤ skipWordF f.buffer (skipNonWordF f.buffer f.cursor) :=
    Nat.le_trans (skipNonWordF_ge f.buffer f.cursor) (skipWordF_ge f.buffer _)
  unfold killWord
  dsimp only
  by_cases hlt : f.cursor < skipWordF f.buffer (skipNonWordF f.buffer f.cursor)
  · rw [if_pos hlt, (pushKillRing_state _ _).1, (pushKillRing_state _ _).2]
    show isBoundary (eraseRange f.buffer f.cursor
      (skipWordF f.buffer (skipNonWordF f.buffer f.cursor) - f.cursor)) f.cursor
    unfold eraseRange
    have he : f.cursor + (skipWordF f.buffer (skipNonWordF f.buffer f.cursor) - f.cursor)
        = skipWordF f.buffer (skipNonWordF f.buffer f.cursor) := by omega
    rw [he]
    exact boundary_erase f.buffer f.cursor _ hge hbc2.1 hbc2
  · rw [if_neg hlt]
    exact hbc2

theorem killWordBackward_boundary (f : InputField) (hv : validUtf8 f.buffer = true)
    (hb : isBoundary f.buffer f.cursor) :
    isBoundary (killWordBackward f).buffer (killWordBackward f).cursor := by
  have hbc2 : isBoundary f.buffer (skipWordB f.buffer (skipNonWordB f.buffer f.cursor)) :=
    skipWordB_boundary f.buffer _ hv (skipNonWordB_boundary f.buffer f.cursor hv hb)
  have hle : skipWordB f.buffer (skipNonWordB f.buffer f.cursor) ≤ f.cursor :=
    Nat.le_trans (skipWordB_le f.buffer _) (skipNonWordB_le f.buffer f.cursor)
  unfold killWordBackward
  dsimp only
  by_cases hlt : skipWordB f.buffer (skipNonWordB f.buffer f.cursor) < f.cursor
  · rw [if_pos hlt, (pushKillRing_state _ _).1, (pushKillRing_state _ _).2]
    show isBoundary (eraseRange f.buffer (skipWordB f.buffer (skipNonWordB f.buffer f.cursor))
      (f.cursor - skipWordB f.buffer (skipNonWordB f.buffer f.cursor)))
      (skipWordB f.buffer (skipNonWordB f.buffer f.cursor))
    unfold eraseRange
    have he : skipWordB f.buffer (skipNonWordB f.buffer f.cursor)
        + (f.cursor - skipWordB f.buffer (skipNonWordB f.buffer f.cursor)) = f.cursor := by omega
    rw [he]
    exact boundary_erase f.buffer _ f.cursor hle hb.1 hb
  · rw [if_neg hlt]
    exact hbc2

theorem yank_boundary (f : InputField) (hb : isBoundary f.buffer f.cursor) :
    isBoundary (yank f).buffer (yank f).cursor := by
  unfold yank
  split
  · exact hb
  · exact insertText_boundary { f with killRingIndex := f.killRing.length - 1 }
      (f.killRing.getLastD []) hb

theorem yankPop_boundary (f : InputField) (hb : isBoundary f.buffer f.cursor) :
    isBoundary (yankPop f).buffer (yankPop f).cursor := by
  unfold yankPop
  split
  · exact hb
  · apply insertText_boundary
    by_cases h1 : f.killRingIndex < f.killRing.length
    · rw [if_pos h1]
      by_cases h2 : (f.killRing.getD f.killRingIndex []).length ≤ f.cursor
      · rw [if_pos h2]
        show isBoundary (eraseRange f.buffer
          (f.cursor - (f.killRing.getD f.killRingIndex []).length)
          (f.killRing.getD f.killRingIndex []).length)
          (f.cursor - (f.killRing.getD f.killRingIndex []).length)
        unfold eraseRange
        have he : f.cursor - (f.killRing.getD f.killRingIndex []).length
            + (f.killRing.getD f.killRingIndex []).length = f.cursor := by omega
        rw [he]
        exact boundary_erase f.buffer _ f.cursor (by omega) hb.1 hb
      · rw [if_neg h2]
        exact hb
    · rw [if_neg h1]
      exact hb

theorem historyPrev_boundary (f : InputField) (hb : isBoundary f.buffer f.cursor) :
    isBoundary (historyPrev f).buffer (historyPrev f).cursor := by
  unfold historyPrev
  split
  · exact hb
  · by_cases h1 : 0 < f.historyIndex
    · rw [if_pos h1]
      exact isBoundary_length _
    · rw [if_neg h1]
      split
      · exact hb
      · exact hb

theorem historyNext_boundary (f : InputField) (hb : isBoundary f.buffer f.cursor) :
    isBoundary (historyNext f).buffer (historyNext f).cursor := by
  unfold historyNext
  split
  · exact hb
  · split
    · exact isBoundary_length _
    · exact isBoundary_length _

theorem transpose_boundary (f : InputField) (hv : validUtf8 f.buffer = true)
    (hb : isBoundary f.buffer f.cursor) :
    isBoundary (transpose f).buffer (transpose f).cursor := by
  unfold transpose
  dsimp only
  split
  · exact hb
  · set pos := if f.cursor = f.buffer.length then prevGraphemeCluster f.buffer f.cursor
      else f.cursor with hpos
    have hpos_le : pos ≤ f.buffer.length := by
      rw [hpos]
      split
      · exact Nat.le_trans (prevGraphemeCluster_le f.buffer f.cursor) hb.1
      · exact hb.1
    have hbpos : isBoundary f.buffer pos := by
      rw [hpos]
      split
      · exact prevGraphemeCluster_boundary f.buffer f.cursor hv hb.1
      · exact hb
    have hprev_le : prevGraphemeCluster f.buffer pos ≤ pos := prevGraphemeCluster_le f.buffer pos
    have hnext_ge : pos ≤ nextGraphemeCluster f.buffer pos := nextGraphemeCluster_ge f.buffer pos
    have hnb : isBoundary f.buffer (nextGraphemeCluster f.buffer pos) :=
      nextGraphemeCluster_boundary f.buffer pos hbpos
    have hd : prevGraphemeCluster f.buffer pos
        + (nextGraphemeCluster f.buffer pos - prevGraphemeCluster f.buffer pos)
        = nextGraphemeCluster f.buffer pos := by omega
    have ht : (substr f.buffer pos (nextGraphemeCluster f.buffer pos - pos)
        ++ substr f.buffer (prevGraphemeCluster f.buffer pos)
          (pos - prevGraphemeCluster f.buffer pos)).length
        = nextGraphemeCluster f.buffer pos - prevGraphemeCluster f.buffer pos := by
      have hnle := hnb.1
      simp only [List.length_append, substr, List.length_take, List.length_drop]
      omega
    have hs := boundary_splice f.buffer
      (substr f.buffer pos (nextGraphemeCluster f.buffer pos - pos)
        ++ substr f.buffer (prevGraphemeCluster f.buffer pos)
          (pos - prevGraphemeCluster f.buffer pos))
      (prevGraphemeCluster f.buffer pos) (nextGraphemeCluster f.buffer pos)
      (by omega) hnb.1 hnb
    rw [ht, hd] at hs
    rw [hd]
    exact hs

theorem ctrlCombo_boundary (f : InputField) (cp : Nat) (r : InputField × InputFieldAction)
    (hv : validUtf8 f.buffer = true) (hb : isBoundary f.buffer f.cursor)
    (h : ctrlCombo f cp = Option.some r) : isBoundary r.1.buffer r.1.cursor := by
  unfold ctrlCombo at h
  by_cases h1 : cp = 97
  · rw [if_pos h1] at h
    injection h with h
    subst h
    exact moveToStart_boundary f hv
  rw [if_neg h1] at h
  by_cases h2 : cp = 101
  · rw [if_pos h2] at h
    injection h with h
    subst h
    exact moveToEnd_boundary f
  rw [if_neg h2] at h
  by_cases h3 : cp = 102
  · rw [if_pos h3] at h
    injection h with h
    subst h
    exact moveForwardChar_boundary f hb
  rw [if_neg h3] at h
  by_cases h4 : cp = 98
  · rw [if_pos h4] at h
    injection h with h
    subst h
    exact moveBackwardChar_boundary f hv hb
  rw [if_neg h4] at h
  by_cases h5 : cp = 112
  · rw [if_pos h5] at h
    injection h with h
    subst h
    exact historyPrev_boundary f hb
  rw [if_neg h5] at h
  by_cases h6 : cp = 110
  · rw [if_pos h6] at h
    injection h with h
    subst h
    exact historyNext_boundary f hb
  rw [if_neg h6] at h
  by_cases h7 : cp = 107
  · rw [if_pos h7] at h
    injection h with h
    subst h
    exact killToEnd_boundary f hb
  rw [if_neg h7] at h
  by_cases h8 : cp = 117
  · rw [if_pos h8] at h
    injection h with h
    subst h
    exact killToStart_boundary f hb
  rw [if_neg h8] at h
  by_cases h9 : cp = 119
  · rw [if_pos h9] at h
    injection h with h
    subst h
    exact killWordBackward_boundary f hv hb
  rw [if_neg h9] at h
  by_cases h10 : cp = 121
  · rw [if_pos h10] at h
    injection h with h
    subst h
    exact yank_boundary f hb
  rw [if_neg h10] at h
  by_cases h11 : cp = 116
  · rw [if_pos h11] at h
    injection h with h
    subst h
    exact transpose_boundary f hv hb
  rw [if_neg h11] at h
  by_cases h12 : cp = 100
  · rw [if_pos h12] at h
    injection h with h
    subst h
    split
    · exact hb
    · exact deleteChar_boundary f hb
  rw [if_neg h12] at h
  by_cases h13 : cp = 99
  · rw [if_pos h13] at h
    injection h with h
    subst h
    exact hb
  rw [if_neg h13] at h
  exact Option.noConfusion h

theorem altCombo_boundary (f : InputField) (cp : Nat) (r : InputField × InputFieldAction)
    (hv : validUtf8 f.buffer = true) (hb : isBoundary f.buffer f.cursor)
    (h : altCombo f cp = Option.some r) : isBoundary r.1.buffer r.1.cursor := by
  unfold altCombo at h
  by_cases h1 : cp = 102
  · rw [if_pos h1] at h
    injection h with h
    subst h
    exact moveForwardWord_boundary f hb
  rw [if_neg h1] at h
  by_cases h2 : cp = 98
  · rw [if_pos h2] at h
    injection h with h
    subst h
    exact moveBackwardWord_boundary f hv hb
  rw [if_neg h2] at h
  by_cases h3 : cp = 100
  · rw [if_pos h3] at h
    injection h with h
    subst h
    exact killWord_boundary f hb
  rw [if_neg h3] at h
  by_cases h4 : cp = 121
  · rw [if_pos h4] at h
    injection h with h
    subst h
    exact yankPop_boundary f hb
  rw [if_neg h4] at h
  exact Option.noConfusion h

theorem specialKey_boundary (f : InputField) (k : KeyEvent) (ctrl alt : Bool)
    (r : InputField × InputFieldAction)
    (hv : validUtf8 f.buffer = true) (hb : isBoundary f.buffer f.cursor)
    (h : specialKey f k ctrl alt = Option.some r) : isBoundary r.1.buffer r.1.cursor := by
  unfold specialKey at h
  by_cases h1 : k.key = KeyCode.enter
  · rw [if_pos h1] at h
    injection h with h
    subst h
    exact hb
  rw [if_neg h1] at h
  by_cases h2 : k.key = KeyCode.tab
  · rw [if_pos h2] at h
    injection h with h
    subst h
    exact hb
  rw [if_neg h2] at h
  by_cases h3 : k.key = KeyCode.escape
  · rw [if_pos h3] at h
    injection h with h
    subst h
    exact hb
  rw [if_neg h3] at h
  by_cases h4 : k.key = KeyCode.backspace
  · rw [if_pos h4] at h
    injection h with h
    subst h
    split
    · exact killWordBackward_boundary f hv hb
    · exact deleteCharBackward_boundary f hb
  rw [if_neg h4] at h
  by_cases h5 : k.key = KeyCode.delete
  · rw [if_pos h5] at h
    injection h with h
    subst h
    exact deleteChar_boundary f hb
  rw [if_neg h5] at h
  by_cases h6 : k.key = KeyCode.up
  · rw [if_pos h6] at h
    injection h with h
    subst h
    exact historyPrev_boundary f hb
  rw [if_neg h6] at h
  by_cases h7 : k.key = KeyCode.down
  · rw [if_pos h7] at h
    injection h with h
    subst h
    exact historyNext_boundary f hb
  rw [if_neg h7] at h
  by_cases h8 : k.key = KeyCode.left
  · rw [if_pos h8] at h
    injection h with h
    subst h
    split
    · exact moveBackwardWord_boundary f hv hb
    · exact moveBackwardChar_boundary f hv hb
  rw [if_neg h8] at h
  by_cases h9 : k.key = KeyCode.right
  · rw [if_pos h9] at h
    injection h with h
    subst h
    split
    · exact moveForwardWord_boundary f hb
    · exact moveForwardChar_boundary f hb
  rw [if_neg h9] at h
  by_cases h10 : k.key = KeyCode.home
  · rw [if_pos h10] at h
    injection h with h
    subst h
    exact moveToStart_boundary f hv
  rw [if_neg h10] at h
  by_cases h11 : k.key = KeyCode.«end»
  · rw [if_pos h11] at h
    injection h with h
    subst h
    exact moveToEnd_boundary f
  rw [if_neg h11] at h
  exact Option.noConfusion h

theorem handleKey_boundary (f : InputField) (k : KeyEvent)
    (hv : validUtf8 f.buffer = true) (hb : isBoundary f.buffer f.cursor) :
    isBoundary (handleKey f k).1.buffer (handleKey f k).1.cursor := by
  unfold handleKey
  dsimp only
  rcases hsk : specialKey f k (hasCtrl k.modifiers) (hasAlt k.modifiers) with _ | r
  · by_cases hc : (hasCtrl k.modifiers && (k.codepoint != 0)) = true
    · rw [if_pos hc]
      rcases hcc : ctrlCombo f k.codepoint with _ | r
      · by_cases ha : (hasAlt k.modifiers && (k.codepoint != 0)) = true
        · rw [if_pos ha]
          rcases hac : altCombo f k.codepoint with _ | r
          · dsimp only
            split
            · exact insertCodepoint_boundary f k.codepoint hb
            · exact hb
          · exact altCombo_boundary f k.codepoint r hv hb hac
        · rw [if_neg ha]
          dsimp only
          split
          · exact insertCodepoint_boundary f k.codepoint hb
          · exact hb
      · exact ctrlCombo_boundary f k.codepoint r hv hb hcc
    · rw [if_neg hc]
      by_cases ha : (hasAlt k.modifiers && (k.codepoint != 0)) = true
      · rw [if_pos ha]
        rcases hac : altCombo f k.codepoint with _ | r
        · dsimp only
          split
          · exact insertCodepoint_boundary f k.codepoint hb
          · exact hb
        · exact altCombo_boundary f k.codepoint r hv hb hac
      · rw [if_neg ha]
        dsimp only
        split
        · exact insertCodepoint_boundary f k.codepoint hb
        · exact hb
  · exact specialKey_boundary f k _ _ r hv hb hsk

theorem processEvent_boundary (f : InputField) (e : InputEvent)
    (hv : validUtf8 f.buffer = true) (hb : isBoundary f.buffer f.cursor) :
    isBoundary (processEvent f e).1.buffer (processEvent f e).1.cursor := by
  cases e with
  | key k => exact handleKey_boundary f k hv hb
  | mouse m => exact hb
  | resize c r => exact hb
  | paste t => exact insertText_boundary f t hb

/-- Event list of the C3 counterexample: a bracketed paste of a bare
combining acute accent (U+0301, bytes CC 81), Home, then typing the letter
a.  Each intermediate buffer is valid UTF-8. -/
def c3BadEvents : List InputEvent :=
  [InputEvent.paste [0xCC, 0x81],
   InputEvent.key { key := KeyCode.home },
   InputEvent.key { key := 97, codepoint := 97 }]

/-- **C3 (counterexample).** The original claim fails: starting from the
default InputField, pasting a bare combining accent, pressing Home and
typing the letter a keeps every intermediate buffer valid UTF-8, yet
leaves the cursor at byte offset 1 of the buffer 61 CC 81 - a codepoint
boundary, but strictly inside the grapheme cluster formed by the letter
and the combining accent, so the cursor does not fall on a
grapheme-cluster boundary. -/
theorem cursor_grapheme_counterexample :
    (∀ n, validUtf8 (applyEvents ({} : InputField) (c3BadEvents.take n)).buffer = true) ∧
    (applyEvents ({} : InputField) c3BadEvents).buffer = [97, 0xCC, 0x81] ∧
    (applyEvents ({} : InputField) c3BadEvents).cursor = 1 ∧
    isBoundary (applyEvents ({} : InputField) c3BadEvents).buffer 1 ∧
    ¬ isGraphemeBoundary (applyEvents ({} : InputField) c3BadEvents).buffer 1 := by
  refine ⟨fun n => ?_, by decide, by decide, by decide, by decide⟩
  match n with
  | 0 => decide
  | 1 => decide
  | 2 => decide
  | m + 3 =>
    have hlen : c3BadEvents.length ≤ m + 3 := by
      simp only [c3BadEvents, List.length_cons, List.length_nil]
      omega
    rw [List.take_of_length_le hlen]
    decide

/-- **C3 (amended).** For every starting InputField whose cursor is in
range on a codepoint boundary of its buffer, and every event sequence
under which the buffer stays valid UTF-8 at every step, after processing
the events the cursor byte offset lies in [0, buffer length] and falls on
a codepoint boundary of the buffer.  (The grapheme-cluster half of the
original claim is refuted by cursor_grapheme_counterexample.) -/
theorem cursor_boundary_amended (f0 : InputField) (es : List InputEvent)
    (hb : isBoundary f0.buffer f0.cursor)
    (hv : ∀ n, validUtf8 (applyEvents f0 (es.take n)).buffer = true) :
    (applyEvents f0 es).cursor ≤ (applyEvents f0 es).buffer.length ∧
    isBoundary (applyEvents f0 es).buffer (applyEvents f0 es).cursor := by
  induction es generalizing f0 with
  | nil => exact ⟨hb.1, hb⟩
  | cons e rest ih =>
    have hv0 : validUtf8 f0.buffer = true := hv 0
    have hstep := processEvent_boundary f0 e hv0 hb
    have happ : applyEvents f0 (e :: rest) = applyEvents (processEvent f0 e).1 rest := rfl
    rw [happ]
    exact ih (processEvent f0 e).1 hstep (fun n => hv (n + 1))

/-- Event list of the C3 witness: paste "hi", Home, type the letter c. -/
def c3GoodEvents : List InputEvent :=
  [InputEvent.paste [104, 105],
   InputEvent.key { key := KeyCode.home },
   InputEvent.key { key := 99, codepoint := 99 }]

/-- Witness for cursor_boundary_amended at a concrete run: paste "hi",
Home, type c from the default InputField. -/
theorem cursor_boundary_amended_witness :
    (applyEvents ({} : InputField) c3GoodEvents).cursor
      ≤ (applyEvents ({} : InputField) c3GoodEvents).buffer.length ∧
    isBoundary (applyEvents ({} : InputField) c3GoodEvents).buffer
      (applyEvents ({} : InputField) c3GoodEvents).cursor :=
  cursor_boundary_amended {} c3GoodEvents (by decide) (fun n => by
    match n with
    | 0 => decide
    | 1 => decide
    | 2 => decide
    | m + 3 =>
      have hlen : c3GoodEvents.length ≤ m + 3 := by
        simp only [c3GoodEvents, List.length_cons, List.length_nil]
        omega
      rw [List.take_of_length_le hlen]
      decide)

end MyChat
